import Mathlib

set_option maxRecDepth 2048

/-!
Verification of the habl.ai backend (Python sources under src/) against its
natural-language specification.  Python strings are embedded as `List Char`;
the remote translation / speech / extraction services are oracle parameters
returning `Except` (an `Except.error` models a raised exception); the credit
ledger balance is a `Nat`.
-/

namespace HablAI

/-- Python `str.split(sep)` for a two-character separator `[a, b]`:
leftmost, non-overlapping matches, keeping empty pieces. -/
def splitOnPair (a b : Char) : List Char → List (List Char)
  | [] => [[]]
  | [c] => [[c]]
  | c1 :: c2 :: rest =>
    if c1 = a ∧ c2 = b then
      [] :: splitOnPair a b rest
    else
      match splitOnPair a b (c2 :: rest) with
      | [] => [[c1]]
      | h :: t => (c1 :: h) :: t

/-- Python `str.replace(old, new)` for two-character `old = [a, b]` and
two-character `new = [r, s]`: leftmost, non-overlapping. -/
def replacePair (a b r s : Char) : List Char → List Char
  | [] => []
  | [c] => [c]
  | c1 :: c2 :: rest =>
    if c1 = a ∧ c2 = b then
      r :: s :: replacePair a b r s rest
    else
      c1 :: replacePair a b r s (c2 :: rest)

/-- Python `sep.join(pieces)`. -/
def pyJoin (sep : List Char) : List (List Char) → List Char
  | [] => []
  | [x] => x
  | x :: y :: xs => x ++ sep ++ pyJoin sep (y :: xs)

/-- The common ASCII whitespace characters stripped by Python `str.strip()`
(the embedding omits the rarer stripped control characters 0x1c-0x1f). -/
def pyIsSpace (c : Char) : Bool :=
  c = ' ' || c = '\t' || c = '\n' || c = '\r' || c = '\x0b' || c = '\x0c'

/-- Python `str.strip()` (for ASCII text). -/
def pyStrip (l : List Char) : List Char :=
  ((l.dropWhile pyIsSpace).reverse.dropWhile pyIsSpace).reverse

/-- Does `hay` start with `needle` (helper for the substring test)? -/
def pyStartsWith : List Char → List Char → Bool
  | [], _ => true
  | _ :: _, [] => false
  | a :: as, b :: bs => a = b && pyStartsWith as bs

/-- Python `needle in hay` (substring containment). -/
def pyContains (needle : List Char) : List Char → Bool
  | [] => pyStartsWith needle []
  | c :: rest => pyStartsWith needle (c :: rest) || pyContains needle rest

/-- Source `hablai_core.py` line 54: Google Translate payload limit. -/
def MAX_CHUNK_SIZE : Nat := 4500

/-- Source `hablai_core.py` line 147: gTTS payload limit. -/
def MAX_TTS_SIZE : Nat := 4999

/-- State of the greedy packing loops of `hablai_core.py`
(`chunks`, `current_chunk`, `current_length`). -/
structure ChunkState where
  chunks : List (List Char)
  current_chunk : List (List Char)
  current_length : Nat

/-- The shared body of the three packing loops of `hablai_core.py`
(lines 86-93, 96-103, 190-197): if `current_length + len(seg) + 2`
exceeds the bound, emit `join(current_chunk)` (when nonempty) and start a
fresh chunk holding `seg`; otherwise append `seg` and add `len(seg) + 2`. -/
def packStep (bound : Nat) (join : List (List Char) → List Char)
    (st : ChunkState) (seg : List Char) : ChunkState :=
  if bound < st.current_length + seg.length + 2 then
    { chunks := st.chunks ++
        (if st.current_chunk = [] then [] else [join st.current_chunk]),
      current_chunk := [seg],
      current_length := seg.length }
  else
    { chunks := st.chunks,
      current_chunk := st.current_chunk ++ [seg],
      current_length := st.current_length + seg.length + 2 }

/-- Source `hablai_core.py` lines 81-93: one sentence of an oversized paragraph in
`translate_text`: strip it, skip it when empty, otherwise pack it
(an emitted chunk is joined with `' '`). -/
def sentenceStep (st : ChunkState) (s : List Char) : ChunkState :=
  let s' := pyStrip s
  if s' = [] then st
  else packStep MAX_CHUNK_SIZE (pyJoin [' ']) st s'

/-- Source `hablai_core.py` lines 75-103: one paragraph in `translate_text`:
an oversized paragraph is split on `'. '` and its sentences packed one by
one; a fitting paragraph is packed whole (an emitted chunk is joined with
`"\n\n"`). -/
def paragraphStep (st : ChunkState) (p : List Char) : ChunkState :=
  if MAX_CHUNK_SIZE < p.length then
    (splitOnPair '.' ' ' p).foldl sentenceStep st
  else
    packStep MAX_CHUNK_SIZE (pyJoin ['\n', '\n']) st p

/-- Source `hablai_core.py` lines 69-107: the chunk list built by `translate_text`
for a long text: split on `"\n\n"`, pack, then flush the last chunk
(joined with `"\n\n"`). -/
def translateChunks (text : List Char) : List (List Char) :=
  let st := (splitOnPair '\n' '\n' text).foldl paragraphStep ⟨[], [], 0⟩
  st.chunks ++
    (if st.current_chunk = [] then [] else [pyJoin ['\n', '\n'] st.current_chunk])

/-- Source `hablai_core.py` lines 183-197: one sentence in `text_to_speech`:
strip, skip when empty, otherwise pack (an emitted chunk is joined with
`'. '` and a final `'.'` is appended). -/
def ttsStep (st : ChunkState) (s : List Char) : ChunkState :=
  let s' := pyStrip s
  if s' = [] then st
  else packStep MAX_TTS_SIZE (fun g => pyJoin ['.', ' '] g ++ ['.']) st s'

/-- Source `hablai_core.py` line 178: the sentence list of `text_to_speech`:
`text.replace('.\n', '. ').replace('.\r', '. ').split('. ')`. -/
def ttsSentences (text : List Char) : List (List Char) :=
  splitOnPair '.' ' ' (replacePair '.' '\r' '.' ' ' (replacePair '.' '\n' '.' ' ' text))

/-- Source `hablai_core.py` lines 178-200: the chunk list built by `text_to_speech`
for a long text. -/
def ttsChunks (text : List Char) : List (List Char) :=
  let st := (ttsSentences text).foldl ttsStep ⟨[], [], 0⟩
  st.chunks ++
    (if st.current_chunk = [] then []
     else [pyJoin ['.', ' '] st.current_chunk ++ ['.']])

/-- Source `hablai_core.py` line 23: the source language is always English-US. -/
def source_language : List Char := "en".toList

/-- Outcome of one run of `LocalizationAI.translate_text`: the texts passed to
the remote translator (in call order) and the returned string. -/
structure TranslateRun where
  calls : List (List Char)
  result : List Char

/-- Run a fallible remote call on each chunk in order, recording the calls
made; the first `Except.error` (a raised exception) aborts the loop, so later
chunks are never sent (`hablai_core.py` lines 120-123 and 207-218 under the
enclosing `try`). -/
def runCalls {β : Type} (f : List Char → Except (List Char) β) :
    List (List Char) → List (List Char) × Except (List Char) (List β)
  | [] => ([], .ok [])
  | c :: cs =>
    match f c with
    | .error e => ([c], .error e)
    | .ok t =>
      let r := runCalls f cs
      (c :: r.1, match r.2 with | .ok ts => .ok (t :: ts) | .error e => .error e)

/-- Source `hablai_core.py` line 132: `f"Translation error: {str(e)}"`. -/
def translationErrorMsg (e : List Char) : List Char :=
  ("Translation error: ".toList) ++ e

/-- Source `hablai_core.py` line 227: `f"TTS error: {str(e)}"`. -/
def ttsErrorMsg (e : List Char) : List Char :=
  ("TTS error: ".toList) ++ e

/-- Source `hablai_core.py` lines 42-132, `LocalizationAI.translate_text`.  The
remote `GoogleTranslator.translate` is the oracle `tr`; `Except.error e`
models a raised exception with message `e`, caught by the enclosing
`try`/`except` which returns `f"Translation error: {e}"`.  A short text
(`len(text) <= MAX_CHUNK_SIZE`) is sent whole; `en` is returned unchanged
with no remote call; a long text is chunked and the translated chunks are
joined with `"\n\n"`. -/
def translate_text (tr : List Char → Except (List Char) (List Char))
    (text target_lang : List Char) : TranslateRun :=
  if text.length ≤ MAX_CHUNK_SIZE then
    if target_lang = source_language then ⟨[], text⟩
    else
      match tr text with
      | .ok t => ⟨[text], t⟩
      | .error e => ⟨[text], translationErrorMsg e⟩
  else
    if target_lang = source_language then ⟨[], text⟩
    else
      match runCalls tr (translateChunks text) with
      | (calls, .ok ts) => ⟨calls, pyJoin ['\n', '\n'] ts⟩
      | (calls, .error e) => ⟨calls, translationErrorMsg e⟩

/-- Outcome of one run of `LocalizationAI.text_to_speech`: the texts passed to
gTTS (in call order), the returned string (a filename, or an error message),
and the audio content exported to that file (`none` on failure).  Audio is a
`List S` over an abstract sample type `S`, so that pydub concatenation is
list append. -/
structure TTSRun (S : Type) where
  calls : List (List Char)
  ret : List Char
  audio : Option (List S)

/-- Source `hablai_core.py` lines 151-155: `os.path.join(output_dir,
f"audio_{lang}_{timestamp}.mp3")` with the default `output_dir`. -/
def audioFilename (lang timestamp : List Char) : List Char :=
  ("output_audio/audio_".toList) ++ lang ++ ("_".toList) ++ timestamp ++ (".mp3".toList)

/-- Source `hablai_core.py` lines 134-227, `LocalizationAI.text_to_speech` (with
pydub importable, so the truncation fallback of lines 167-175 is not taken).
The oracle `synth` is gTTS synthesis (`gTTS(...).save` plus
`AudioSegment.from_mp3`); `Except.error` models a raised exception, caught by
the enclosing `try`/`except` which returns `f"TTS error: {e}"`.  A short text
is synthesized whole; a long text is chunked and the audio segments are
concatenated in order (`combined += audio_chunk`) and exported. -/
def text_to_speech {S : Type} (synth : List Char → Except (List Char) (List S))
    (text lang timestamp : List Char) : TTSRun S :=
  if text.length ≤ MAX_TTS_SIZE then
    match synth text with
    | .ok a => ⟨[text], audioFilename lang timestamp, some a⟩
    | .error e => ⟨[text], ttsErrorMsg e, none⟩
  else
    match runCalls synth (ttsChunks text) with
    | (calls, .ok segs) => ⟨calls, audioFilename lang timestamp, some segs.flatten⟩
    | (calls, .error e) => ⟨calls, ttsErrorMsg e, none⟩

/-- Source `config.py` lines 49-60: `Config.TARGET_LANGUAGES` (code, display name). -/
def TARGET_LANGUAGES : List (List Char × List Char) :=
  [("en".toList, "English (US)".toList),
   ("es".toList, "Spanish".toList),
   ("fr".toList, "French".toList),
   ("de".toList, "German".toList),
   ("it".toList, "Italian".toList),
   ("pt".toList, "Portuguese".toList),
   ("ja".toList, "Japanese".toList),
   ("zh-CN".toList, "Chinese".toList),
   ("ko".toList, "Korean".toList)]

/-- Source `hablai_core.py` lines 26-36: `LocalizationAI.target_languages`. -/
def target_languages : List (List Char × List Char) :=
  [("en".toList, "English (US)".toList),
   ("es".toList, "Spanish".toList),
   ("fr".toList, "French".toList),
   ("de".toList, "German".toList),
   ("it".toList, "Italian".toList),
   ("pt".toList, "Portuguese".toList),
   ("ja".toList, "Japanese".toList),
   ("zh-CN".toList, "Chinese".toList),
   ("ko".toList, "Korean".toList)]

/-- Source `models.py` lines 10-20: the `TargetLanguage` enum. -/
inductive TargetLanguage where
  | ENGLISH | SPANISH | FRENCH | GERMAN | ITALIAN
  | PORTUGUESE | JAPANESE | CHINESE | KOREAN
deriving DecidableEq

/-- The string value of each `TargetLanguage` member (`models.py` 10-20). -/
def TargetLanguage.value : TargetLanguage → List Char
  | .ENGLISH => "en".toList
  | .SPANISH => "es".toList
  | .FRENCH => "fr".toList
  | .GERMAN => "de".toList
  | .ITALIAN => "it".toList
  | .PORTUGUESE => "pt".toList
  | .JAPANESE => "ja".toList
  | .CHINESE => "zh-CN".toList
  | .KOREAN => "ko".toList

/-- All members of the `TargetLanguage` enum, in declaration order. -/
def TargetLanguage.all : List TargetLanguage :=
  [.ENGLISH, .SPANISH, .FRENCH, .GERMAN, .ITALIAN,
   .PORTUGUESE, .JAPANESE, .CHINESE, .KOREAN]

/-- Pydantic validation of a `target_language` field of `TranslateRequest` /
`TTSRequest`: the raw code must be the value of some enum member, otherwise
the request is rejected (HTTP 422) before the endpoint body runs. -/
def parseTargetLanguage (code : List Char) : Option TargetLanguage :=
  TargetLanguage.all.find? (fun t => decide (t.value = code))

/-- Modelled from the spec: the PostgreSQL function `check_and_deduct_credits`
invoked via RPC by `auth.py` lines 187-194 lives in the external managed
database and its body is not part of the repository sources.  Per the spec a
credit is "a unit of metered usage deducted per billable action (translate,
synthesize speech, process file), tracked in an external ledger": when the
balance covers `credits_needed` the ledger deducts them and reports `True`,
otherwise it reports `False` and leaves the balance unchanged. -/
def check_and_deduct_credits (credits credits_needed : Nat) : Bool × Nat :=
  if credits_needed ≤ credits then (true, credits - credits_needed)
  else (false, credits)

/-- The literal `"Error"` tested by the endpoints (`api.py` 225, 299, 316,
464, 481): `if "Error" in str(...)`. -/
def errorWord : List Char := "Error".toList

/-- Observable outcome of the `/translate` endpoint: HTTP status, the
`translated_text` returned to the caller (if any), the credit balance after
the request, and the remote translation calls made. -/
structure TranslateOutcome where
  status : Nat
  translated_text : Option (List Char)
  ledger : Nat
  calls : List (List Char)
deriving DecidableEq

/-- Source `api.py` lines 193-261, the `/translate` endpoint body (after
authentication and pydantic validation): deduct one credit (402 when the
ledger refuses), translate, treat the result as a failure exactly when it
contains `"Error"` (HTTP 500 via `HTTPException`), otherwise answer 200 with
the translated text. -/
def translate_endpoint (tr : List Char → Except (List Char) (List Char))
    (credits : Nat) (text target_lang : List Char) : TranslateOutcome :=
  if (check_and_deduct_credits credits 1).1 = false then
    ⟨402, none, (check_and_deduct_credits credits 1).2, []⟩
  else if pyContains errorWord (translate_text tr text target_lang).result then
    ⟨500, none, (check_and_deduct_credits credits 1).2,
      (translate_text tr text target_lang).calls⟩
  else
    ⟨200, some (translate_text tr text target_lang).result,
      (check_and_deduct_credits credits 1).2,
      (translate_text tr text target_lang).calls⟩

/-- The `/translate` route including pydantic validation of the request body:
an unknown language code is rejected with 422 before the handler runs. -/
def translate_api (tr : List Char → Except (List Char) (List Char))
    (credits : Nat) (text target_language_code : List Char) : TranslateOutcome :=
  match parseTargetLanguage target_language_code with
  | none => ⟨422, none, credits, []⟩
  | some t => translate_endpoint tr credits text t.value

/-- Observable outcome of the `/tts` endpoint. -/
structure TTSOutcome (S : Type) where
  status : Nat
  translated_text : Option (List Char)
  audio : Option (List S)
  ledger : Nat
  translateCalls : List (List Char)
  synthCalls : List (List Char)

/-- Source `api.py` lines 265-380, the `/tts` endpoint body: deduct one credit,
translate, fail (500) when the translation contains `"Error"`, synthesize,
fail (500) when the returned string contains `"Error"`, otherwise 200. -/
def tts_endpoint {S : Type} (tr : List Char → Except (List Char) (List Char))
    (synth : List Char → Except (List Char) (List S))
    (credits : Nat) (text target_lang timestamp : List Char) : TTSOutcome S :=
  if (check_and_deduct_credits credits 1).1 = false then
    ⟨402, none, none, (check_and_deduct_credits credits 1).2, [], []⟩
  else if pyContains errorWord (translate_text tr text target_lang).result then
    ⟨500, none, none, (check_and_deduct_credits credits 1).2,
      (translate_text tr text target_lang).calls, []⟩
  else if pyContains errorWord
      (text_to_speech synth (translate_text tr text target_lang).result
        target_lang timestamp).ret then
    ⟨500, none, none, (check_and_deduct_credits credits 1).2,
      (translate_text tr text target_lang).calls,
      (text_to_speech synth (translate_text tr text target_lang).result
        target_lang timestamp).calls⟩
  else
    ⟨200, some (translate_text tr text target_lang).result,
      (text_to_speech synth (translate_text tr text target_lang).result
        target_lang timestamp).audio,
      (check_and_deduct_credits credits 1).2,
      (translate_text tr text target_lang).calls,
      (text_to_speech synth (translate_text tr text target_lang).result
        target_lang timestamp).calls⟩

/-- Source `file_processor.py` lines 17-25: `FileProcessor.SUPPORTED_FORMATS`
(extension, MIME type). -/
def SUPPORTED_FORMATS : List (List Char × List Char) :=
  [("txt".toList, "text/plain".toList),
   ("pdf".toList, "application/pdf".toList),
   ("docx".toList, "application/vnd.openxmlformats-officedocument.wordprocessingml.document".toList),
   ("json".toList, "application/json".toList),
   ("csv".toList, "text/csv".toList),
   ("xlsx".toList, "application/vnd.openxmlformats-officedocument.spreadsheetml.sheet".toList),
   ("xls".toList, "application/vnd.ms-excel".toList)]

/-- Source `file_processor.py` line 27: `MAX_FILE_SIZE = 10 * 1024 * 1024`. -/
def MAX_FILE_SIZE : Nat := 10 * 1024 * 1024

/-- Source `file_processor.py` lines 30-32: `filename.split('.')[-1].lower()`. -/
def get_file_extension (filename : List Char) : List Char :=
  ((filename.splitOn '.').getLastD []).map Char.toLower

/-- Source `file_processor.py` lines 35-38: `ext in SUPPORTED_FORMATS`. -/
def is_supported (filename : List Char) : Bool :=
  (SUPPORTED_FORMATS.map Prod.fst).contains (get_file_extension filename)

/-- The format-specific extraction library calls of `file_processor.py`
(`_process_txt` ... `_process_xlsx`), as oracles over the raw bytes;
`Except.error` models a raised parse exception. -/
structure Extractors where
  txt : List Nat → Except (List Char) (List Char)
  pdf : List Nat → Except (List Char) (List Char)
  docx : List Nat → Except (List Char) (List Char)
  json : List Nat → Except (List Char) (List Char)
  csv : List Nat → Except (List Char) (List Char)
  xlsx : List Nat → Except (List Char) (List Char)

/-- The dictionary returned by `FileProcessor.process_file`: `success`, and
the `text` / `error` / `format` entries that are present. -/
structure FileResult where
  success : Bool
  text : Option (List Char)
  error : Option (List Char)
  format : Option (List Char)

/-- The `if ext == ... / elif ...` dispatch chain of `file_processor.py`
lines 69-85 (`xlsx` and `xls` share `_process_xlsx`; `none` is the
unreachable final `else`). -/
def dispatchExtractor (ex : Extractors) (ext : List Char) (content : List Nat) :
    Option (Except (List Char) (List Char)) :=
  if ext = "txt".toList then some (ex.txt content)
  else if ext = "pdf".toList then some (ex.pdf content)
  else if ext = "docx".toList then some (ex.docx content)
  else if ext = "json".toList then some (ex.json content)
  else if ext = "csv".toList then some (ex.csv content)
  else if ext = "xlsx".toList ∨ ext = "xls".toList then some (ex.xlsx content)
  else none

/-- Source `file_processor.py` lines 41-101, `FileProcessor.process_file`: reject an
unsupported extension, then an oversized file, then dispatch on the extension;
any exception from an extractor is caught and returned as a `success=False`
dictionary, so the function never raises. -/
def process_file (ex : Extractors) (file_content : List Nat)
    (filename : List Char) : FileResult :=
  if is_supported filename = false then
    ⟨false, none,
      some (("Formato no soportado: ".toList) ++ get_file_extension filename), none⟩
  else if MAX_FILE_SIZE < file_content.length then
    ⟨false, none, some ("Archivo demasiado grande".toList), none⟩
  else
    match dispatchExtractor ex (get_file_extension filename) file_content with
    | none => ⟨false, none,
        some (("Procesador no implementado para: ".toList) ++ get_file_extension filename),
        none⟩
    | some (.ok t) => ⟨true, some t, none, some (get_file_extension filename)⟩
    | some (.error e) => ⟨false, none,
        some (("Error procesando archivo: ".toList) ++ e), none⟩

/-- Source `config.py` line 63: `MAX_TEXT_LENGTH = 20000`. -/
def MAX_TEXT_LENGTH : Nat := 20000

/-- Observable outcome of the `/process-file` endpoint. -/
structure ProcessFileOutcome where
  status : Nat
  ledger : Nat
  extracted : Bool
  translateCalls : List (List Char)
  synthCalls : List (List Char)

/-- Source `api.py` lines 385-549, the `/process-file` endpoint body: validate the
target language (400) *before* the credit check (402), then extract text from
the file (400 on a `success=False` result), validate the text length (400),
translate and synthesize with the same `"Error"` substring checks (500),
otherwise 200.  `extracted` records whether `FileProcessor.process_file` was
reached. -/
def process_file_endpoint {S : Type} (ex : Extractors)
    (tr : List Char → Except (List Char) (List Char))
    (synth : List Char → Except (List Char) (List S))
    (credits : Nat) (file_content : List Nat)
    (filename target_language timestamp : List Char) : ProcessFileOutcome :=
  if (TARGET_LANGUAGES.map Prod.fst).contains target_language = false then
    ⟨400, credits, false, [], []⟩
  else if (check_and_deduct_credits credits 1).1 = false then
    ⟨402, (check_and_deduct_credits credits 1).2, false, [], []⟩
  else if (process_file ex file_content filename).success = false then
    ⟨400, (check_and_deduct_credits credits 1).2, true, [], []⟩
  else if MAX_TEXT_LENGTH < ((process_file ex file_content filename).text.getD []).length then
    ⟨400, (check_and_deduct_credits credits 1).2, true, [], []⟩
  else if ((process_file ex file_content filename).text.getD []).length < 1 then
    ⟨400, (check_and_deduct_credits credits 1).2, true, [], []⟩
  else if pyContains errorWord
      (translate_text tr ((process_file ex file_content filename).text.getD [])
        target_language).result then
    ⟨500, (check_and_deduct_credits credits 1).2, true,
      (translate_text tr ((process_file ex file_content filename).text.getD [])
        target_language).calls, []⟩
  else if pyContains errorWord
      (text_to_speech synth
        (translate_text tr ((process_file ex file_content filename).text.getD [])
          target_language).result target_language timestamp).ret then
    ⟨500, (check_and_deduct_credits credits 1).2, true,
      (translate_text tr ((process_file ex file_content filename).text.getD [])
        target_language).calls,
      (text_to_speech synth
        (translate_text tr ((process_file ex file_content filename).text.getD [])
          target_language).result target_language timestamp).calls⟩
  else
    ⟨200, (check_and_deduct_credits credits 1).2, true,
      (translate_text tr ((process_file ex file_content filename).text.getD [])
        target_language).calls,
      (text_to_speech synth
        (translate_text tr ((process_file ex file_content filename).text.getD [])
          target_language).result target_language timestamp).calls⟩

end HablAI

section SanityChecks
open HablAI
example : splitOnPair '\n' '\n' ("ab\n\ncd".toList) = ["ab".toList, "cd".toList] := by decide
example : splitOnPair '\n' '\n' ("\n\n\n".toList) = ["".toList, "\n".toList] := by decide
example : replacePair '.' '\n' '.' ' ' (".\n.\na".toList) = ". . a".toList := by decide
example : pyStrip ("  a b\n".toList) = "a b".toList := by decide
example : pyJoin ['\n', '\n'] ["ab".toList, "c".toList] = "ab\n\nc".toList := by decide
example : pyContains ("Error".toList) ("Translation error: x".toList) = false := by decide
example : pyContains ("Error".toList) ("An Error occurred".toList) = true := by decide
example : translateChunks ("a. b".toList) = ["a. b".toList] := by decide
example : ttsChunks ("a. b".toList) = ["a. b.".toList] := by decide
example : get_file_extension ("Report.V2.XLS".toList) = "xls".toList := by decide
example : get_file_extension ("noext".toList) = "noext".toList := by decide
example : is_supported ("a.xls".toList) = true := by decide
example : is_supported ("a.md".toList) = false := by decide
example : parseTargetLanguage ("zh-CN".toList) = some .CHINESE := by decide
example : parseTargetLanguage ("xx".toList) = none := by decide
example : (translate_text (fun t => .ok t) ("hi".toList) ("en".toList)).result = "hi".toList := by decide
example : (translate_text (fun _ => .error ("timeout".toList)) ("hi".toList) ("es".toList)).result
    = "Translation error: timeout".toList := by decide
example : (translate_endpoint (fun _ => .error ("timeout".toList)) 3 ("hi".toList) ("es".toList)).status = 200 := by decide
example : (translate_endpoint (fun _ => .error ("timeout".toList)) 3 ("hi".toList) ("es".toList)).ledger = 2 := by decide
end SanityChecks

namespace HablAI

theorem splitOnPair_ne_nil (a b : Char) : ∀ l : List Char, splitOnPair a b l ≠ []
  | [] => by simp [splitOnPair]
  | [c] => by simp [splitOnPair]
  | c1 :: c2 :: rest => by
    simp only [splitOnPair]
    split
    · simp
    · split
      · simp
      · simp

theorem splitOnPair_pos (a b : Char) (rest : List Char) :
    splitOnPair a b (a :: b :: rest) = [] :: splitOnPair a b rest := by
  simp [splitOnPair]

theorem splitOnPair_neg (a b c1 c2 : Char) (rest : List Char)
    (h : ¬ (c1 = a ∧ c2 = b)) (hd : List Char) (tl : List (List Char))
    (hsp : splitOnPair a b (c2 :: rest) = hd :: tl) :
    splitOnPair a b (c1 :: c2 :: rest) = (c1 :: hd) :: tl := by
  simp only [splitOnPair]
  rw [if_neg h, hsp]

theorem pyJoin_cons (sep x y : List Char) (xs : List (List Char)) :
    pyJoin sep (x :: y :: xs) = x ++ sep ++ pyJoin sep (y :: xs) := rfl

theorem splitOnPair_dest (a b : Char) (l : List Char) :
    ∃ hd tl, splitOnPair a b l = hd :: tl := by
  cases hx : splitOnPair a b l with
  | nil => exact absurd hx (splitOnPair_ne_nil a b l)
  | cons hd tl => exact ⟨hd, tl, rfl⟩

theorem pyJoin_splitOnPair (a b : Char) :
    ∀ l : List Char, pyJoin [a, b] (splitOnPair a b l) = l
  | [] => rfl
  | [c] => rfl
  | c1 :: c2 :: rest => by
    by_cases h : c1 = a ∧ c2 = b
    · obtain ⟨h1, h2⟩ := h
      subst h1; subst h2
      have ih := pyJoin_splitOnPair c1 c2 rest
      rw [splitOnPair_pos]
      obtain ⟨s, S, hsp⟩ := splitOnPair_dest c1 c2 rest
      rw [hsp] at ih
      rw [hsp, pyJoin_cons]
      simpa using ih
    · obtain ⟨hd, tl, hsp⟩ := splitOnPair_dest a b (c2 :: rest)
      have ih := pyJoin_splitOnPair a b (c2 :: rest)
      rw [hsp] at ih
      rw [splitOnPair_neg a b c1 c2 rest h hd tl hsp]
      cases tl with
      | nil =>
        simp only [pyJoin] at ih ⊢
        rw [ih]
      | cons t ts =>
        rw [pyJoin_cons] at ih ⊢
        simp only [List.cons_append, List.append_assoc] at ih ⊢
        rw [ih]

theorem splitOnPair_no_occ (a b : Char) :
    ∀ l : List Char, (∀ c ∈ l, c ≠ a) → splitOnPair a b l = [l]
  | [] => fun _ => rfl
  | [c] => fun _ => rfl
  | c1 :: c2 :: rest => fun h => by
    have hc1 : c1 ≠ a := h c1 (by simp)
    have hguard : ¬ (c1 = a ∧ c2 = b) := fun hx => hc1 hx.1
    have ih := splitOnPair_no_occ a b (c2 :: rest) (fun c hc => h c (by simp [hc]))
    rw [splitOnPair_neg a b c1 c2 rest hguard (c2 :: rest) [] ih]

theorem splitOnPair_append_sep (a b : Char) :
    ∀ l r : List Char, (∀ c ∈ l, c ≠ a) →
      splitOnPair a b (l ++ a :: b :: r) = l :: splitOnPair a b r
  | [], r => fun _ => by
    simpa using splitOnPair_pos a b r
  | [c], r => fun h => by
    have hc : c ≠ a := h c (by simp)
    have hguard : ¬ (c = a ∧ a = b) := fun hx => hc hx.1
    rw [List.singleton_append]
    rw [splitOnPair_neg a b c a (b :: r) hguard [] (splitOnPair a b r)
      (splitOnPair_pos a b r)]
  | c1 :: c2 :: l2, r => fun h => by
    have hc1 : c1 ≠ a := h c1 (by simp)
    have hguard : ¬ (c1 = a ∧ c2 = b) := fun hx => hc1 hx.1
    have ih := splitOnPair_append_sep a b (c2 :: l2) r (fun c hc => h c (by simp [hc]))
    rw [List.cons_append] at ih ⊢
    rw [List.cons_append]
    rw [splitOnPair_neg a b c1 c2 (l2 ++ a :: b :: r) hguard (c2 :: l2)
      (splitOnPair a b r) ih]

theorem dropWhile_eq_self_of_all {p : Char → Bool} :
    ∀ l : List Char, (∀ c ∈ l, p c = false) → l.dropWhile p = l
  | [] => fun _ => rfl
  | c :: cs => fun h => by
    simp [List.dropWhile, h c (by simp)]

theorem pyStrip_no_space (l : List Char) (h : ∀ c ∈ l, pyIsSpace c = false) :
    pyStrip l = l := by
  unfold pyStrip
  rw [dropWhile_eq_self_of_all l h]
  rw [dropWhile_eq_self_of_all l.reverse (fun c hc => h c (List.mem_reverse.mp hc))]
  exact List.reverse_reverse l

theorem replacePair_no_occ (a b r s : Char) :
    ∀ l : List Char, (∀ c ∈ l, c ≠ a) → replacePair a b r s l = l
  | [] => fun _ => rfl
  | [c] => fun _ => rfl
  | c1 :: c2 :: rest => fun h => by
    have hc1 : c1 ≠ a := h c1 (by simp)
    have hguard : ¬ (c1 = a ∧ c2 = b) := fun hx => hc1 hx.1
    have ih := replacePair_no_occ a b r s (c2 :: rest) (fun c hc => h c (by simp [hc]))
    simp only [replacePair]
    rw [if_neg hguard, ih]

theorem le_foldr_max {x : Nat} : ∀ {l : List Nat}, x ∈ l → x ≤ l.foldr max 0 := by
  intro l
  induction l with
  | nil => intro h; cases h
  | cons y ys ih =>
    intro h
    rcases List.mem_cons.mp h with h | h
    · subst h; exact le_max_left _ _
    · exact le_trans (ih h) (le_max_right _ _)

theorem pyJoin_append (sep : List Char) :
    ∀ xs ys : List (List Char), xs ≠ [] → ys ≠ [] →
      pyJoin sep (xs ++ ys) = pyJoin sep xs ++ sep ++ pyJoin sep ys
  | [], _, hxs, _ => absurd rfl hxs
  | [x], [], _, hys => absurd rfl hys
  | [x], y :: ys2, _, _ => rfl
  | x :: x2 :: xs2, ys, _, hys => by
    have ih := pyJoin_append sep (x2 :: xs2) ys (by simp) hys
    rw [List.cons_append] at ih
    rw [List.cons_append, List.cons_append]
    rw [pyJoin_cons sep x x2 (xs2 ++ ys)]
    rw [ih]
    rw [pyJoin_cons sep x x2 xs2]
    simp [List.append_assoc]

theorem flatten_ne_nil_of_head {α : Type} {g : List α} {G : List (List α)} (hg : g ≠ []) :
    (g :: G).flatten ≠ [] := by
  simp only [List.flatten_cons]
  intro h
  rcases List.append_eq_nil.mp h with ⟨h1, _⟩
  exact hg h1

theorem pyJoin_map_pyJoin (sep : List Char) :
    ∀ G : List (List (List Char)), (∀ g ∈ G, g ≠ []) →
      pyJoin sep (G.map (pyJoin sep)) = pyJoin sep G.flatten
  | [] => fun _ => rfl
  | [g] => fun _ => by simp [pyJoin]
  | g :: g2 :: G2 => fun h => by
    have hg : g ≠ [] := h g (by simp)
    have hflat : (g2 :: G2).flatten ≠ [] :=
      flatten_ne_nil_of_head (G := G2) (h g2 (by simp))
    have ih := pyJoin_map_pyJoin sep (g2 :: G2) (fun x hx => h x (by simp [hx]))
    rw [List.map_cons, List.map_cons]
    rw [pyJoin_cons]
    rw [show pyJoin sep g2 :: List.map (pyJoin sep) G2
        = List.map (pyJoin sep) (g2 :: G2) from rfl]
    rw [ih]
    rw [show (g :: g2 :: G2).flatten = g ++ (g2 :: G2).flatten from rfl]
    rw [pyJoin_append sep g (g2 :: G2).flatten hg hflat]


/-- Sum over a chunk-in-progress of each segment's length plus the
2-character separator allowance that `current_length` accounts for it. -/
def segWeight (g : List (List Char)) : Nat :=
  (g.map (fun x => x.length + 2)).sum

theorem pyJoin_length_le (sep : List Char) (hsep : sep.length ≤ 2) :
    ∀ g : List (List Char), g ≠ [] → (pyJoin sep g).length + 2 ≤ segWeight g
  | [], h => absurd rfl h
  | [x], _ => by simp [pyJoin, segWeight]
  | x :: y :: g2, _ => by
    have ih := pyJoin_length_le sep hsep (y :: g2) (by simp)
    rw [pyJoin_cons]
    simp only [segWeight, List.map_cons, List.sum_cons] at ih ⊢
    simp only [List.length_append]
    omega

/-- Invariant of the packing loops: every emitted chunk is at most `B + k`
long (`k` is the extra length the flush join may add beyond the separator
allowance), the running counter is at most `B`, and the counter overestimates
the pending chunk's weight by at most 2. -/
def packInv (B k : Nat) (st : ChunkState) : Prop :=
  (∀ c ∈ st.chunks, c.length ≤ B + k) ∧
  st.current_length ≤ B ∧
  segWeight st.current_chunk ≤ st.current_length + 2

theorem packStep_inv {bnd B k : Nat} {join : List (List Char) → List Char}
    (hjoin : ∀ g, g ≠ [] → (join g).length + 2 ≤ segWeight g + k)
    (hbnd : bnd ≤ B)
    {st : ChunkState} {seg : List Char}
    (hseg : seg.length ≤ B) (hst : packInv B k st) :
    packInv B k (packStep bnd join st seg) := by
  obtain ⟨h1, h2, h3⟩ := hst
  unfold packStep
  split
  · refine ⟨?_, hseg, by simp [segWeight]⟩
    intro c hc
    rcases List.mem_append.mp hc with hc | hc
    · exact h1 c hc
    · by_cases hcur : st.current_chunk = []
      · rw [if_pos hcur] at hc
        cases hc
      · rw [if_neg hcur] at hc
        have hce := List.mem_singleton.mp hc
        subst hce
        have := hjoin st.current_chunk hcur
        omega
  · rename_i hle
    refine ⟨h1, ?_, ?_⟩
    · show st.current_length + seg.length + 2 ≤ B
      omega
    · show segWeight (st.current_chunk ++ [seg]) ≤ st.current_length + seg.length + 2 + 2
      simp only [segWeight, List.map_append, List.sum_append, List.map_cons,
        List.sum_cons, List.map_nil, List.sum_nil] at h3 ⊢
      omega

theorem foldl_inv {α σ : Type} (step : σ → α → σ) (P : σ → Prop) (C : α → Prop)
    (hstep : ∀ st a, P st → C a → P (step st a)) :
    ∀ (l : List α) (st : σ), P st → (∀ a ∈ l, C a) → P (l.foldl step st)
  | [], _ => fun h _ => h
  | a :: l, st => fun h hC => by
    exact foldl_inv step P C hstep l (step st a) (hstep st a h (hC a (by simp)))
      (fun x hx => hC x (by simp [hx]))

theorem sentenceStep_inv {B : Nat} (hB : MAX_CHUNK_SIZE ≤ B)
    {st : ChunkState} {s : List Char}
    (hs : (pyStrip s).length ≤ B) (hst : packInv B 0 st) :
    packInv B 0 (sentenceStep st s) := by
  unfold sentenceStep
  by_cases h : pyStrip s = []
  · simpa [h] using hst
  · simp only [if_neg h]
    exact packStep_inv
      (fun g hg => by simpa using pyJoin_length_le [' '] (by simp) g hg)
      hB hs hst

theorem ttsStep_inv {B : Nat} (hB : MAX_TTS_SIZE ≤ B)
    {st : ChunkState} {s : List Char}
    (hs : (pyStrip s).length ≤ B) (hst : packInv B 1 st) :
    packInv B 1 (ttsStep st s) := by
  unfold ttsStep
  by_cases h : pyStrip s = []
  · simpa [h] using hst
  · simp only [if_neg h]
    refine packStep_inv (fun g hg => ?_) hB hs hst
    have := pyJoin_length_le ['.', ' '] (by simp) g hg
    simp only [List.length_append]
    simp at this ⊢
    omega

theorem paragraphStep_inv {B : Nat} (hB : MAX_CHUNK_SIZE ≤ B)
    {st : ChunkState} {p : List Char}
    (hp : MAX_CHUNK_SIZE < p.length →
      ∀ s ∈ splitOnPair '.' ' ' p, (pyStrip s).length ≤ B)
    (hst : packInv B 0 st) :
    packInv B 0 (paragraphStep st p) := by
  unfold paragraphStep
  by_cases h : MAX_CHUNK_SIZE < p.length
  · simp only [if_pos h]
    exact foldl_inv sentenceStep (packInv B 0)
      (fun s => (pyStrip s).length ≤ B)
      (fun st s hst hs => sentenceStep_inv hB hs hst)
      (splitOnPair '.' ' ' p) st hst (hp h)
  · simp only [if_neg h]
    exact packStep_inv
      (fun g hg => by simpa using pyJoin_length_le ['\n', '\n'] (by simp) g hg)
      hB (by omega) hst

/-- Largest stripped length among a list of sentences. -/
def stripLenMax (ss : List (List Char)) : Nat :=
  (ss.map (fun s => (pyStrip s).length)).foldr max 0

/-- Largest atomic segment the translate chunker may start a chunk with:
an oversized paragraph contributes its longest stripped sentence, a fitting
paragraph contributes its own length. -/
def translateSegMax (text : List Char) : Nat :=
  ((splitOnPair '\n' '\n' text).map (fun p =>
    if MAX_CHUNK_SIZE < p.length then stripLenMax (splitOnPair '.' ' ' p)
    else p.length)).foldr max 0

/-- Largest stripped sentence the TTS chunker may start a chunk with. -/
def ttsSegMax (text : List Char) : Nat :=
  stripLenMax (ttsSentences text)

theorem translateChunks_inv (text : List Char) :
    ∀ c ∈ translateChunks text,
      c.length ≤ max MAX_CHUNK_SIZE (translateSegMax text) := by
  intro c hc
  set B := max MAX_CHUNK_SIZE (translateSegMax text) with hBdef
  have hB : MAX_CHUNK_SIZE ≤ B := le_max_left _ _
  have hfold : packInv B 0
      ((splitOnPair '\n' '\n' text).foldl paragraphStep ⟨[], [], 0⟩) := by
    refine foldl_inv paragraphStep (packInv B 0)
      (fun p => MAX_CHUNK_SIZE < p.length →
        ∀ s ∈ splitOnPair '.' ' ' p, (pyStrip s).length ≤ B)
      (fun st p hst hp => paragraphStep_inv hB hp hst)
      _ _ ⟨by simp, by simp, by simp [segWeight]⟩ ?_
    intro p hp hlong s hs
    have h1 : (pyStrip s).length ≤ stripLenMax (splitOnPair '.' ' ' p) :=
      le_foldr_max (List.mem_map_of_mem (fun s => (pyStrip s).length) hs)
    have h2 : stripLenMax (splitOnPair '.' ' ' p) ≤ translateSegMax text := by
      have := le_foldr_max (l := ((splitOnPair '\n' '\n' text).map (fun p =>
        if MAX_CHUNK_SIZE < p.length then stripLenMax (splitOnPair '.' ' ' p)
        else p.length))) (x := stripLenMax (splitOnPair '.' ' ' p)) ?_
      · exact this
      · refine List.mem_map.mpr ⟨p, hp, ?_⟩
        rw [if_pos hlong]
    exact le_trans h1 (le_trans h2 (le_max_right _ _))
  obtain ⟨h1, h2, h3⟩ := hfold
  unfold translateChunks at hc
  rcases List.mem_append.mp hc with hc | hc
  · exact h1 c hc
  · set st := (splitOnPair '\n' '\n' text).foldl paragraphStep ⟨[], [], 0⟩
    by_cases hcur : st.current_chunk = []
    · rw [if_pos hcur] at hc
      cases hc
    · rw [if_neg hcur] at hc
      have hce := List.mem_singleton.mp hc
      subst hce
      have := pyJoin_length_le ['\n', '\n'] (by simp) st.current_chunk hcur
      omega

theorem ttsChunks_inv (text : List Char) :
    ∀ c ∈ ttsChunks text,
      c.length ≤ max MAX_TTS_SIZE (ttsSegMax text) + 1 := by
  intro c hc
  set B := max MAX_TTS_SIZE (ttsSegMax text) with hBdef
  have hB : MAX_TTS_SIZE ≤ B := le_max_left _ _
  have hfold : packInv B 1 ((ttsSentences text).foldl ttsStep ⟨[], [], 0⟩) := by
    refine foldl_inv ttsStep (packInv B 1)
      (fun s => (pyStrip s).length ≤ B)
      (fun st s hst hs => ttsStep_inv hB hs hst)
      _ _ ⟨by simp, by simp, by simp [segWeight]⟩ ?_
    intro s hs
    have h1 : (pyStrip s).length ≤ stripLenMax (ttsSentences text) :=
      le_foldr_max (List.mem_map_of_mem (fun s => (pyStrip s).length) hs)
    exact le_trans h1 (le_max_right _ _)
  obtain ⟨h1, h2, h3⟩ := hfold
  unfold ttsChunks at hc
  rcases List.mem_append.mp hc with hc | hc
  · exact h1 c hc
  · set st := (ttsSentences text).foldl ttsStep ⟨[], [], 0⟩
    by_cases hcur : st.current_chunk = []
    · rw [if_pos hcur] at hc
      cases hc
    · rw [if_neg hcur] at hc
      have hce := List.mem_singleton.mp hc
      subst hce
      have := pyJoin_length_le ['.', ' '] (by simp) st.current_chunk hcur
      simp only [List.length_append]
      simp at this ⊢
      omega


theorem sentenceStep_eq (st : ChunkState) (s : List Char) :
    sentenceStep st s =
      (if pyStrip s = [] then st
       else packStep MAX_CHUNK_SIZE (pyJoin [' ']) st (pyStrip s)) := rfl

theorem ttsStep_eq (st : ChunkState) (s : List Char) :
    ttsStep st s =
      (if pyStrip s = [] then st
       else packStep MAX_TTS_SIZE (fun g => pyJoin ['.', ' '] g ++ ['.']) st (pyStrip s)) := rfl

theorem translateChunks_single (l : List Char)
    (hlen : MAX_CHUNK_SIZE < l.length)
    (hnl : ∀ c ∈ l, c ≠ '\n') (hdot : ∀ c ∈ l, c ≠ '.')
    (hsp : ∀ c ∈ l, pyIsSpace c = false) (hne : l ≠ []) :
    translateChunks l = [l] := by
  unfold translateChunks
  rw [splitOnPair_no_occ '\n' '\n' l hnl]
  simp only [List.foldl_cons, List.foldl_nil]
  unfold paragraphStep
  rw [if_pos hlen]
  rw [splitOnPair_no_occ '.' ' ' l hdot]
  simp only [List.foldl_cons, List.foldl_nil]
  rw [sentenceStep_eq]
  rw [pyStrip_no_space l hsp]
  rw [if_neg hne]
  unfold packStep
  rw [if_pos (by omega : MAX_CHUNK_SIZE <
    (⟨[], [], 0⟩ : ChunkState).current_length + l.length + 2)]
  simp [pyJoin]

theorem ttsChunks_single (l : List Char)
    (hlen : MAX_TTS_SIZE < l.length)
    (hdot : ∀ c ∈ l, c ≠ '.')
    (hsp : ∀ c ∈ l, pyIsSpace c = false) (hne : l ≠ []) :
    ttsChunks l = [l ++ ['.']] := by
  unfold ttsChunks
  have hsent : ttsSentences l = [l] := by
    unfold ttsSentences
    rw [replacePair_no_occ '.' '\n' '.' ' ' l hdot]
    rw [replacePair_no_occ '.' '\r' '.' ' ' l hdot]
    exact splitOnPair_no_occ '.' ' ' l hdot
  rw [hsent]
  simp only [List.foldl_cons, List.foldl_nil]
  rw [ttsStep_eq]
  rw [pyStrip_no_space l hsp]
  rw [if_neg hne]
  unfold packStep
  rw [if_pos (by omega : MAX_TTS_SIZE <
    (⟨[], [], 0⟩ : ChunkState).current_length + l.length + 2)]
  simp [pyJoin]

theorem runCalls_ok {β : Type} (f : List Char → β) :
    ∀ l : List (List Char),
      runCalls (fun c => .ok (f c)) l = (l, .ok (l.map f))
  | [] => rfl
  | c :: cs => by
    simp only [runCalls]
    rw [runCalls_ok f cs]
    simp

theorem runCalls_err_head {β : Type} (e : List Char) (c : List Char)
    (cs : List (List Char)) :
    runCalls (fun _ => (.error e : Except (List Char) β)) (c :: cs)
      = ([c], .error e) := rfl

theorem replicate_ne_nil_of_pos {n : Nat} {c : Char} (hn : 0 < n) :
    List.replicate n c ≠ [] := by
  intro h
  have := congrArg List.length h
  simp at this
  omega

theorem mem_replicate_a {n : Nat} {c : Char} (hc : c ∈ List.replicate n 'a') :
    c = 'a' := List.eq_of_mem_replicate hc


/-- A named identity-translation oracle used in concrete runs. -/
def okId : List Char → Except (List Char) (List Char) := fun t => .ok t

theorem runCalls_okId (l : List (List Char)) : runCalls okId l = (l, .ok l) := by
  have h := runCalls_ok (fun t : List Char => t) l
  simpa [okId] using h

theorem runCalls_calls_mem {β : Type} (f : List Char → Except (List Char) β) :
    ∀ (l : List (List Char)) (c : List Char), c ∈ (runCalls f l).1 → c ∈ l
  | [], c => by simp [runCalls]
  | x :: xs, c => by
    simp only [runCalls]
    cases hx : f x with
    | error e =>
      intro h
      simp at h
      simp [h]
    | ok t =>
      intro h
      simp only [List.mem_cons] at h ⊢
      rcases h with h | h
      · exact Or.inl h
      · exact Or.inr (runCalls_calls_mem f xs c h)

theorem translate_calls_bound
    (tr : List Char → Except (List Char) (List Char)) (text tgt : List Char) :
    ∀ c ∈ (translate_text tr text tgt).calls,
      c.length ≤ max MAX_CHUNK_SIZE (translateSegMax text) := by
  intro c hc
  unfold translate_text at hc
  by_cases hlen : text.length ≤ MAX_CHUNK_SIZE
  · rw [if_pos hlen] at hc
    by_cases htgt : tgt = source_language
    · rw [if_pos htgt] at hc
      simp at hc
    · rw [if_neg htgt] at hc
      cases hx : tr text with
      | error e =>
        rw [hx] at hc
        simp at hc
        subst hc
        exact le_trans hlen (le_max_left _ _)
      | ok t =>
        rw [hx] at hc
        simp at hc
        subst hc
        exact le_trans hlen (le_max_left _ _)
  · rw [if_neg hlen] at hc
    by_cases htgt : tgt = source_language
    · rw [if_pos htgt] at hc
      simp at hc
    · rw [if_neg htgt] at hc
      rcases hrc : runCalls tr (translateChunks text) with ⟨calls, res⟩
      rw [hrc] at hc
      have hcalls : calls = (runCalls tr (translateChunks text)).1 := by
        rw [hrc]
      cases res with
      | error e =>
        simp at hc
        rw [hcalls] at hc
        exact translateChunks_inv text c (runCalls_calls_mem tr _ c hc)
      | ok ts =>
        simp at hc
        rw [hcalls] at hc
        exact translateChunks_inv text c (runCalls_calls_mem tr _ c hc)

theorem tts_calls_bound {S : Type}
    (synth : List Char → Except (List Char) (List S)) (text lang ts : List Char) :
    ∀ c ∈ (text_to_speech synth text lang ts).calls,
      c.length ≤ max MAX_TTS_SIZE (ttsSegMax text) + 1 := by
  intro c hc
  unfold text_to_speech at hc
  by_cases hlen : text.length ≤ MAX_TTS_SIZE
  · rw [if_pos hlen] at hc
    cases hx : synth text with
    | error e =>
      rw [hx] at hc
      simp at hc
      subst hc
      exact le_trans hlen (by omega)
    | ok a =>
      rw [hx] at hc
      simp at hc
      subst hc
      exact le_trans hlen (by omega)
  · rw [if_neg hlen] at hc
    rcases hrc : runCalls synth (ttsChunks text) with ⟨calls, res⟩
    rw [hrc] at hc
    have hcalls : calls = (runCalls synth (ttsChunks text)).1 := by
      rw [hrc]
    cases res with
    | error e =>
      simp at hc
      rw [hcalls] at hc
      exact ttsChunks_inv text c (runCalls_calls_mem synth _ c hc)
    | ok segs =>
      simp at hc
      rw [hcalls] at hc
      exact ttsChunks_inv text c (runCalls_calls_mem synth _ c hc)

/-- Claim C1 as stated is false: for the input consisting of 4501 copies of
`'a'` — a text that is one paragraph made of a single sentence longer than
the bound — `translate_text` passes a single 4501-character chunk to the
remote translation API, exceeding `MAX_CHUNK_SIZE = 4500`. -/
theorem claim_C1_counterexample :
    ∃ c ∈ (translate_text okId (List.replicate 4501 'a') ("es".toList)).calls,
      MAX_CHUNK_SIZE < c.length := by
  have hch : translateChunks (List.replicate 4501 'a') = [List.replicate 4501 'a'] :=
    translateChunks_single _
      (by simp only [List.length_replicate, MAX_CHUNK_SIZE]; omega)
      (fun c hc => by rw [mem_replicate_a hc]; decide)
      (fun c hc => by rw [mem_replicate_a hc]; decide)
      (fun c hc => by rw [mem_replicate_a hc]; decide)
      (replicate_ne_nil_of_pos (by omega))
  refine ⟨List.replicate 4501 'a', ?_,
    by simp only [List.length_replicate, MAX_CHUNK_SIZE]; omega⟩
  unfold translate_text
  rw [if_neg (by simp only [List.length_replicate, MAX_CHUNK_SIZE]; omega)]
  rw [if_neg (by decide)]
  rw [hch, runCalls_okId]
  exact List.mem_singleton_self _

/-- Claim C1, amended: every chunk passed to the remote translation API has
length at most `max MAX_CHUNK_SIZE M`, where `M` is the longest atomic
segment of the input (a fitting paragraph, or a stripped sentence of an
oversized paragraph) — an indivisible segment longer than the bound becomes a
chunk on its own.  Likewise every chunk passed to the speech API has length
at most `max MAX_TTS_SIZE M' + 1` (`M'` the longest stripped sentence; the
`+ 1` is the `'.'` the TTS chunker appends after the separator allowance). -/
theorem claim_C1_theorem {S : Type}
    (tr : List Char → Except (List Char) (List Char))
    (synth : List Char → Except (List Char) (List S))
    (text tgt lang ts : List Char) :
    (∀ c ∈ (translate_text tr text tgt).calls,
      c.length ≤ max MAX_CHUNK_SIZE (translateSegMax text)) ∧
    (∀ c ∈ (text_to_speech synth text lang ts).calls,
      c.length ≤ max MAX_TTS_SIZE (ttsSegMax text) + 1) :=
  ⟨translate_calls_bound tr text tgt, tts_calls_bound synth text lang ts⟩

/-- Witness for the amended C1 at a concrete input. -/
theorem claim_C1_witness :
    ("hi".toList).length ≤ max MAX_CHUNK_SIZE (translateSegMax ("hi".toList)) ∧
    ("hi".toList).length ≤ max MAX_TTS_SIZE (ttsSegMax ("hi".toList)) + 1 :=
  ⟨(claim_C1_theorem okId (fun t => (.ok [] : Except (List Char) (List Unit)))
      ("hi".toList) ("es".toList) ("es".toList) []).1 ("hi".toList) (by decide),
   (claim_C1_theorem okId (fun t => (.ok [] : Except (List Char) (List Unit)))
      ("hi".toList) ("es".toList) ("es".toList) []).2 ("hi".toList) (by decide)⟩

/-- Claim C9: translating to the source language `en` is the identity, with
no remote translation call, in both the short-text path and the chunked
long-text path. -/
theorem claim_C9_theorem (tr : List Char → Except (List Char) (List Char))
    (text : List Char) :
    translate_text tr text ("en".toList) = ⟨[], text⟩ := by
  unfold translate_text
  by_cases h : text.length ≤ MAX_CHUNK_SIZE
  · rw [if_pos h, if_pos (show "en".toList = source_language from rfl)]
  · rw [if_neg h, if_pos (show "en".toList = source_language from rfl)]

/-- Claim C3: chunks are translated/synthesized one by one in input order and
reassembled in that order: with an always-successful remote oracle, the calls
made are exactly the chunk list in order, the translation result is the
chunk-wise image joined with `"\n\n"`, and the exported audio is the
concatenation of the per-chunk audio segments in chunk order. -/
theorem claim_C3_theorem {S : Type} (f : List Char → List Char)
    (g : List Char → List S) (text lang timestamp : List Char)
    (hlen : MAX_CHUNK_SIZE < text.length) (hlang : lang ≠ source_language)
    (hlen2 : MAX_TTS_SIZE < text.length) :
    ((translate_text (fun c => .ok (f c)) text lang).calls = translateChunks text ∧
     (translate_text (fun c => .ok (f c)) text lang).result
        = pyJoin ['\n', '\n'] ((translateChunks text).map f)) ∧
    ((text_to_speech (fun c => .ok (g c)) text lang timestamp).calls = ttsChunks text ∧
     (text_to_speech (fun c => .ok (g c)) text lang timestamp).audio
        = some ((ttsChunks text).map g).flatten) := by
  constructor
  · unfold translate_text
    rw [if_neg (by omega), if_neg hlang, runCalls_ok f (translateChunks text)]
    exact ⟨rfl, rfl⟩
  · unfold text_to_speech
    rw [if_neg (by omega), runCalls_ok g (ttsChunks text)]
    exact ⟨rfl, rfl⟩

/-- Witness for C3 at a concrete 5000-character input. -/
theorem claim_C3_witness :
    ((translate_text (fun c => .ok ((fun t => t) c)) (List.replicate 5000 'a') ("es".toList)).calls
        = translateChunks (List.replicate 5000 'a') ∧
     (translate_text (fun c => .ok ((fun t => t) c)) (List.replicate 5000 'a') ("es".toList)).result
        = pyJoin ['\n', '\n'] ((translateChunks (List.replicate 5000 'a')).map (fun t => t))) ∧
    ((text_to_speech (fun _ => (.ok [] : Except (List Char) (List Unit)))
        (List.replicate 5000 'a') ("es".toList) []).calls
        = ttsChunks (List.replicate 5000 'a') ∧
     (text_to_speech (fun _ => (.ok [] : Except (List Char) (List Unit)))
        (List.replicate 5000 'a') ("es".toList) []).audio
        = some ((ttsChunks (List.replicate 5000 'a')).map (fun _ => ([] : List Unit))).flatten) :=
  claim_C3_theorem (fun t => t) (fun _ => ([] : List Unit))
    (List.replicate 5000 'a') ("es".toList) []
    (by simp only [List.length_replicate, MAX_CHUNK_SIZE]; omega) (by decide)
    (by simp only [List.length_replicate, MAX_TTS_SIZE]; omega)


/-- Oracle raising an exception whose message does not contain `"Error"`. -/
def errTimeout : List Char → Except (List Char) (List Char) :=
  fun _ => .error ("timeout".toList)

/-- Oracle raising an exception whose message does contain `"Error"`. -/
def errConn : List Char → Except (List Char) (List Char) :=
  fun _ => .error ("ConnectionError".toList)

/-- Oracle whose successful translation happens to contain `"Error"`. -/
def okErrorText : List Char → Except (List Char) (List Char) :=
  fun _ => .ok ("An Error occurred".toList)

theorem check_deduct_sufficient {credits : Nat} (h : 1 ≤ credits) :
    check_and_deduct_credits credits 1 = (true, credits - 1) := by
  unfold check_and_deduct_credits
  rw [if_pos h]

theorem check_deduct_insufficient {credits : Nat} (h : credits < 1) :
    check_and_deduct_credits credits 1 = (false, credits) := by
  unfold check_and_deduct_credits
  rw [if_neg (show ¬ (1 ≤ credits) from by omega)]

theorem translate_err_result (tr : List Char → Except (List Char) (List Char))
    (text tgt e : List Char) (hlang : tgt ≠ source_language)
    (h : (text.length ≤ MAX_CHUNK_SIZE ∧ tr text = .error e) ∨
         (MAX_CHUNK_SIZE < text.length ∧
           (runCalls tr (translateChunks text)).2 = .error e)) :
    (translate_text tr text tgt).result = translationErrorMsg e := by
  unfold translate_text
  rcases h with ⟨hlen, herr⟩ | ⟨hlen, herr⟩
  · rw [if_pos hlen, if_neg hlang, herr]
  · rw [if_neg (by omega), if_neg hlang]
    rcases hrc : runCalls tr (translateChunks text) with ⟨calls, res⟩
    rw [hrc] at herr
    simp only at herr
    subst herr
    rfl

theorem tts_err_ret {S : Type} (synth : List Char → Except (List Char) (List S))
    (text lang ts e : List Char)
    (h : (text.length ≤ MAX_TTS_SIZE ∧ synth text = .error e) ∨
         (MAX_TTS_SIZE < text.length ∧
           (runCalls synth (ttsChunks text)).2 = .error e)) :
    (text_to_speech synth text lang ts).ret = ttsErrorMsg e := by
  unfold text_to_speech
  rcases h with ⟨hlen, herr⟩ | ⟨hlen, herr⟩
  · rw [if_pos hlen, herr]
  · rw [if_neg (by omega)]
    rcases hrc : runCalls synth (ttsChunks text) with ⟨calls, res⟩
    rw [hrc] at herr
    simp only at herr
    subst herr
    rfl

theorem translate_endpoint_500_iff
    (tr : List Char → Except (List Char) (List Char))
    (credits : Nat) (text tgt : List Char) (hcred : 1 ≤ credits) :
    ((translate_endpoint tr credits text tgt).status = 500 ↔
      pyContains errorWord (translate_text tr text tgt).result = true) := by
  unfold translate_endpoint check_and_deduct_credits
  rw [if_pos hcred]
  rw [if_neg (by simp)]
  by_cases h : pyContains errorWord (translate_text tr text tgt).result = true
  · rw [if_pos h]
    simp [h]
  · rw [if_neg h]
    simpa using h

theorem tts_endpoint_500_iff {S : Type}
    (tr : List Char → Except (List Char) (List Char))
    (synth : List Char → Except (List Char) (List S))
    (credits : Nat) (text tgt ts : List Char) (hcred : 1 ≤ credits) :
    ((tts_endpoint tr synth credits text tgt ts).status = 500 ↔
      (pyContains errorWord (translate_text tr text tgt).result = true ∨
       pyContains errorWord
         (text_to_speech synth (translate_text tr text tgt).result tgt ts).ret = true)) := by
  unfold tts_endpoint check_and_deduct_credits
  rw [if_pos hcred]
  rw [if_neg (by simp)]
  by_cases h1 : pyContains errorWord (translate_text tr text tgt).result = true
  · rw [if_pos h1]
    simp [h1]
  · rw [if_neg h1]
    by_cases h2 : pyContains errorWord
        (text_to_speech synth (translate_text tr text tgt).result tgt ts).ret = true
    · rw [if_pos h2]
      simp [h1, h2]
    · rw [if_neg h2]
      simp [h1, h2]

/-- Claim C10: the core never raises — a failed remote call makes
`translate_text` (resp. `text_to_speech`) return the plain string
`"Translation error: " + e` (resp. `"TTS error: " + e`) — the endpoints
classify the outcome as a failure exactly when the substring `"Error"`
occurs in the returned string, and consequently a successful translation
that happens to contain `"Error"` is reported as HTTP 500. -/
theorem claim_C10_theorem :
    (∀ (tr : List Char → Except (List Char) (List Char)) (text tgt e : List Char),
      tgt ≠ source_language →
      ((text.length ≤ MAX_CHUNK_SIZE ∧ tr text = .error e) ∨
       (MAX_CHUNK_SIZE < text.length ∧
         (runCalls tr (translateChunks text)).2 = .error e)) →
      (translate_text tr text tgt).result = translationErrorMsg e) ∧
    (∀ (S : Type) (synth : List Char → Except (List Char) (List S))
        (text lang ts e : List Char),
      ((text.length ≤ MAX_TTS_SIZE ∧ synth text = .error e) ∨
       (MAX_TTS_SIZE < text.length ∧
         (runCalls synth (ttsChunks text)).2 = .error e)) →
      (text_to_speech synth text lang ts).ret = ttsErrorMsg e) ∧
    (∀ (tr : List Char → Except (List Char) (List Char)) (credits : Nat)
        (text tgt : List Char), 1 ≤ credits →
      ((translate_endpoint tr credits text tgt).status = 500 ↔
        pyContains errorWord (translate_text tr text tgt).result = true)) ∧
    (∀ (S : Type) (tr : List Char → Except (List Char) (List Char))
        (synth : List Char → Except (List Char) (List S))
        (credits : Nat) (text tgt ts : List Char), 1 ≤ credits →
      ((tts_endpoint tr synth credits text tgt ts).status = 500 ↔
        (pyContains errorWord (translate_text tr text tgt).result = true ∨
         pyContains errorWord
           (text_to_speech synth (translate_text tr text tgt).result tgt ts).ret = true))) ∧
    (translate_endpoint okErrorText 3 ("hi".toList) ("es".toList)).status = 500 :=
  ⟨fun tr text tgt e hlang h => translate_err_result tr text tgt e hlang h,
   fun S synth text lang ts e h => tts_err_ret synth text lang ts e h,
   fun tr credits text tgt hcred => translate_endpoint_500_iff tr credits text tgt hcred,
   fun S tr synth credits text tgt ts hcred =>
     tts_endpoint_500_iff tr synth credits text tgt ts hcred,
   by decide⟩

/-- Witness for C10 at concrete inputs: a raised exception with message
`"timeout"` yields the plain error string, and the endpoint classifies a
result as failure by the `"Error"` substring. -/
theorem claim_C10_witness :
    (translate_text errTimeout ("hi".toList) ("es".toList)).result
      = translationErrorMsg ("timeout".toList) ∧
    ((translate_endpoint errTimeout 3 ("hi".toList) ("es".toList)).status = 500 ↔
      pyContains errorWord
        (translate_text errTimeout ("hi".toList) ("es".toList)).result = true) :=
  ⟨claim_C10_theorem.1 errTimeout ("hi".toList) ("es".toList) ("timeout".toList)
     (by decide) (Or.inl ⟨by decide, rfl⟩),
   (claim_C10_theorem.2.2.1) errTimeout 3 ("hi".toList) ("es".toList) (by decide)⟩

/-- Claim C5 (code bug): the endpoints detect a core failure with
`if "Error" in str(translated)`, but the core's failure strings begin
`"Translation error:"` / `"TTS error:"` with a lowercase `e`.  A remote
exception whose message does not contain `"Error"` (here `"timeout"`) makes
`/translate` answer HTTP 200 with the error string
`"Translation error: timeout"` as the translated text, instead of the
claimed HTTP 500 with no translated text. -/
theorem claim_C5_theorem :
    (translate_endpoint errTimeout 3 ("hi".toList) ("es".toList))
      = ⟨200, some ("Translation error: timeout".toList), 2, ["hi".toList]⟩ := by
  decide

/-- Claim C6 as stated is false: a request whose billable action fails does
not leave the balance unchanged — with 3 credits and a failing remote call
(diagnosed as a failure by the endpoint, HTTP 500), the balance drops to 2. -/
theorem claim_C6_counterexample :
    (translate_endpoint errConn 3 ("hi".toList) ("es".toList)).status = 500 ∧
    (translate_endpoint errConn 3 ("hi".toList) ("es".toList)).ledger = 2 ∧
    ¬ (translate_endpoint errConn 3 ("hi".toList) ("es".toList)).ledger = 3 := by
  decide

/-- Claim C6, amended: each request to `/translate`, `/tts` or
`/process-file` that passes the credit check deducts exactly one credit,
even when the billable action afterwards fails; a request rejected for
insufficient credits performs no remote action and leaves the balance
unchanged, as does a `/process-file` request rejected for an unsupported
target language (checked before the credit check). -/
theorem claim_C6_theorem :
    (∀ (tr : List Char → Except (List Char) (List Char)) (credits : Nat)
        (text tgt : List Char), 1 ≤ credits →
      (translate_endpoint tr credits text tgt).ledger = credits - 1) ∧
    (∀ (tr : List Char → Except (List Char) (List Char)) (credits : Nat)
        (text tgt : List Char), credits < 1 →
      translate_endpoint tr credits text tgt = ⟨402, none, credits, []⟩) ∧
    (∀ (S : Type) (tr : List Char → Except (List Char) (List Char))
        (synth : List Char → Except (List Char) (List S)) (credits : Nat)
        (text tgt ts : List Char), 1 ≤ credits →
      (tts_endpoint tr synth credits text tgt ts).ledger = credits - 1) ∧
    (∀ (S : Type) (tr : List Char → Except (List Char) (List Char))
        (synth : List Char → Except (List Char) (List S)) (credits : Nat)
        (text tgt ts : List Char), credits < 1 →
      tts_endpoint tr synth credits text tgt ts = ⟨402, none, none, credits, [], []⟩) ∧
    (∀ (S : Type) (ex : Extractors) (tr : List Char → Except (List Char) (List Char))
        (synth : List Char → Except (List Char) (List S)) (credits : Nat)
        (content : List Nat) (filename tgt ts : List Char),
      (TARGET_LANGUAGES.map Prod.fst).contains tgt = true → 1 ≤ credits →
      (process_file_endpoint ex tr synth credits content filename tgt ts).ledger
        = credits - 1) ∧
    (∀ (S : Type) (ex : Extractors) (tr : List Char → Except (List Char) (List Char))
        (synth : List Char → Except (List Char) (List S)) (credits : Nat)
        (content : List Nat) (filename tgt ts : List Char),
      (TARGET_LANGUAGES.map Prod.fst).contains tgt = true → credits < 1 →
      process_file_endpoint ex tr synth credits content filename tgt ts
        = ⟨402, credits, false, [], []⟩) ∧
    (∀ (S : Type) (ex : Extractors) (tr : List Char → Except (List Char) (List Char))
        (synth : List Char → Except (List Char) (List S)) (credits : Nat)
        (content : List Nat) (filename tgt ts : List Char),
      (TARGET_LANGUAGES.map Prod.fst).contains tgt = false →
      process_file_endpoint ex tr synth credits content filename tgt ts
        = ⟨400, credits, false, [], []⟩) := by
  refine ⟨?_, ?_, ?_, ?_, ?_, ?_, ?_⟩
  · intro tr credits text tgt hcred
    unfold translate_endpoint
    rw [check_deduct_sufficient hcred]
    rw [if_neg (by simp)]
    by_cases h : pyContains errorWord (translate_text tr text tgt).result = true
    · rw [if_pos h]
    · rw [if_neg h]
  · intro tr credits text tgt hcred
    unfold translate_endpoint
    rw [check_deduct_insufficient hcred]
    rw [if_pos (show ((false, credits).1 : Bool) = false from rfl)]
  · intro S tr synth credits text tgt ts hcred
    unfold tts_endpoint
    rw [check_deduct_sufficient hcred]
    rw [if_neg (by simp)]
    by_cases h1 : pyContains errorWord (translate_text tr text tgt).result = true
    · rw [if_pos h1]
    · rw [if_neg h1]
      by_cases h2 : pyContains errorWord
          (text_to_speech synth (translate_text tr text tgt).result tgt ts).ret = true
      · rw [if_pos h2]
      · rw [if_neg h2]
  · intro S tr synth credits text tgt ts hcred
    unfold tts_endpoint
    rw [check_deduct_insufficient hcred]
    rw [if_pos (show ((false, credits).1 : Bool) = false from rfl)]
  · intro S ex tr synth credits content filename tgt ts htgt hcred
    unfold process_file_endpoint
    rw [if_neg (show ¬ ((TARGET_LANGUAGES.map Prod.fst).contains tgt = false)
      from by rw [htgt]; simp)]
    rw [check_deduct_sufficient hcred]
    rw [if_neg (by simp)]
    by_cases h1 : (process_file ex content filename).success = false
    · rw [if_pos h1]
    · rw [if_neg h1]
      by_cases h2 : MAX_TEXT_LENGTH < ((process_file ex content filename).text.getD []).length
      · rw [if_pos h2]
      · rw [if_neg h2]
        by_cases h3 : ((process_file ex content filename).text.getD []).length < 1
        · rw [if_pos h3]
        · rw [if_neg h3]
          by_cases h4 : pyContains errorWord
              (translate_text tr ((process_file ex content filename).text.getD [])
                tgt).result = true
          · rw [if_pos h4]
          · rw [if_neg h4]
            by_cases h5 : pyContains errorWord
                (text_to_speech synth
                  (translate_text tr ((process_file ex content filename).text.getD [])
                    tgt).result tgt ts).ret = true
            · rw [if_pos h5]
            · rw [if_neg h5]
  · intro S ex tr synth credits content filename tgt ts htgt hcred
    unfold process_file_endpoint
    rw [if_neg (show ¬ ((TARGET_LANGUAGES.map Prod.fst).contains tgt = false)
      from by rw [htgt]; simp)]
    rw [check_deduct_insufficient hcred]
    rw [if_pos (show ((false, credits).1 : Bool) = false from rfl)]
  · intro S ex tr synth credits content filename tgt ts htgt
    unfold process_file_endpoint
    rw [if_pos htgt]

/-- A trivially succeeding byte-level extractor oracle. -/
def okBytes : List Nat → Except (List Char) (List Char) :=
  fun _ => .ok ("hello".toList)

/-- Witness for the amended C6 at concrete inputs. -/
theorem claim_C6_witness :
    (translate_endpoint okId 3 ("hi".toList) ("es".toList)).ledger = 2 ∧
    translate_endpoint okId 0 ("hi".toList) ("es".toList)
      = ⟨402, none, 0, []⟩ ∧
    process_file_endpoint (S := Unit)
        ⟨okBytes, okBytes, okBytes, okBytes, okBytes, okBytes⟩ okId (fun _ => .ok [])
        5 [1] ("a.txt".toList) ("xx".toList) []
      = ⟨400, 5, false, [], []⟩ :=
  ⟨claim_C6_theorem.1 okId 3 ("hi".toList) ("es".toList) (by decide),
   claim_C6_theorem.2.1 okId 0 ("hi".toList) ("es".toList) (by decide),
   (claim_C6_theorem.2.2.2.2.2.2) Unit
     ⟨okBytes, okBytes, okBytes, okBytes, okBytes, okBytes⟩ okId (fun _ => .ok [])
     5 [1] ("a.txt".toList) ("xx".toList) [] (by decide)⟩


theorem targetLanguage_all_complete (t : TargetLanguage) : t ∈ TargetLanguage.all := by
  cases t <;> decide

theorem parse_isSome_iff (code : List Char) :
    ((parseTargetLanguage code).isSome ↔
      code ∈ TargetLanguage.all.map TargetLanguage.value) := by
  unfold parseTargetLanguage
  rw [List.find?_isSome]
  constructor
  · rintro ⟨t, ht, hp⟩
    simp at hp
    exact List.mem_map.mpr ⟨t, ht, hp⟩
  · intro h
    obtain ⟨t, ht, hv⟩ := List.mem_map.mp h
    exact ⟨t, ht, by simp [hv]⟩

/-- Claim C7: the accepted target languages are exactly the nine codes
`en, es, fr, de, it, pt, ja, zh-CN, ko`, identically in the pydantic enum
(`models.py`), the configuration (`config.py`) and the core engine
(`hablai_core.py`); a request with any other code is rejected before any
remote call: `/translate` (and `/tts`) at pydantic validation (HTTP 422),
`/process-file` by the explicit check (HTTP 400), in both cases leaving the
ledger untouched and making no translation or synthesis call. -/
theorem claim_C7_theorem :
    (TargetLanguage.all.map TargetLanguage.value
        = ["en".toList, "es".toList, "fr".toList, "de".toList, "it".toList,
           "pt".toList, "ja".toList, "zh-CN".toList, "ko".toList] ∧
     TARGET_LANGUAGES.map Prod.fst
        = ["en".toList, "es".toList, "fr".toList, "de".toList, "it".toList,
           "pt".toList, "ja".toList, "zh-CN".toList, "ko".toList] ∧
     target_languages.map Prod.fst
        = ["en".toList, "es".toList, "fr".toList, "de".toList, "it".toList,
           "pt".toList, "ja".toList, "zh-CN".toList, "ko".toList] ∧
     (∀ t : TargetLanguage, t ∈ TargetLanguage.all)) ∧
    (∀ code : List Char,
      ((parseTargetLanguage code).isSome ↔
        code ∈ TargetLanguage.all.map TargetLanguage.value)) ∧
    (∀ (tr : List Char → Except (List Char) (List Char)) (credits : Nat)
        (text code : List Char),
      parseTargetLanguage code = none →
      translate_api tr credits text code = ⟨422, none, credits, []⟩) ∧
    (∀ (S : Type) (ex : Extractors) (tr : List Char → Except (List Char) (List Char))
        (synth : List Char → Except (List Char) (List S)) (credits : Nat)
        (content : List Nat) (filename code ts : List Char),
      code ∉ TARGET_LANGUAGES.map Prod.fst →
      process_file_endpoint ex tr synth credits content filename code ts
        = ⟨400, credits, false, [], []⟩) := by
  refine ⟨⟨by decide, by decide, by decide, targetLanguage_all_complete⟩,
    parse_isSome_iff, ?_, ?_⟩
  · intro tr credits text code hparse
    unfold translate_api
    rw [hparse]
  · intro S ex tr synth credits content filename code ts hmem
    unfold process_file_endpoint
    rw [if_pos (show (TARGET_LANGUAGES.map Prod.fst).contains code = false
      from by simp [hmem])]

/-- Witness for C7: the unknown code `"xx"` is rejected by both validation
paths without touching anything. -/
theorem claim_C7_witness :
    translate_api okId 5 ("hi".toList) ("xx".toList) = ⟨422, none, 5, []⟩ ∧
    process_file_endpoint (S := Unit)
        ⟨okBytes, okBytes, okBytes, okBytes, okBytes, okBytes⟩ okId (fun _ => .ok [])
        7 [1] ("a.txt".toList) ("xx".toList) []
      = ⟨400, 7, false, [], []⟩ :=
  ⟨claim_C7_theorem.2.2.1 okId 5 ("hi".toList) ("xx".toList) (by decide),
   claim_C7_theorem.2.2.2 Unit
     ⟨okBytes, okBytes, okBytes, okBytes, okBytes, okBytes⟩ okId (fun _ => .ok [])
     7 [1] ("a.txt".toList) ("xx".toList) [] (by decide)⟩

/-- Claim C8 as stated is false: the supported-format set also contains
`xls` — a seventh extension outside the claimed six — and a `.xls` file is
processed successfully (by the XLSX extractor) instead of yielding the
claimed `success=False` unsupported-format result. -/
theorem claim_C8_counterexample :
    get_file_extension ("report.xls".toList)
      ∉ ["txt".toList, "pdf".toList, "docx".toList,
         "json".toList, "csv".toList, "xlsx".toList] ∧
    (process_file ⟨okBytes, okBytes, okBytes, okBytes, okBytes, okBytes⟩
      [1, 2, 3] ("report.xls".toList)).success = true := by
  decide

theorem process_file_unsupported (ex : Extractors) (content : List Nat)
    (filename : List Char)
    (h : get_file_extension filename ∉ SUPPORTED_FORMATS.map Prod.fst) :
    process_file ex content filename
      = ⟨false, none,
          some (("Formato no soportado: ".toList) ++ get_file_extension filename),
          none⟩ := by
  unfold process_file
  rw [if_pos (show is_supported filename = false from by
    unfold is_supported
    simp [h])]

theorem process_file_failure_has_error (ex : Extractors) (content : List Nat)
    (filename : List Char) :
    (process_file ex content filename).success = false →
      (process_file ex content filename).error.isSome = true := by
  unfold process_file
  split
  · intro _
    rfl
  · split
    · intro _
      rfl
    · split
      · intro _
        rfl
      · intro h
        exact absurd h (by simp)
      · intro _
        rfl

theorem process_file_extractor_error (ex : Extractors) (content : List Nat)
    (filename e : List Char)
    (hsize : content.length ≤ MAX_FILE_SIZE)
    (hsup : is_supported filename = true)
    (hdisp : dispatchExtractor ex (get_file_extension filename) content
      = some (.error e)) :
    process_file ex content filename
      = ⟨false, none, some (("Error procesando archivo: ".toList) ++ e), none⟩ := by
  unfold process_file
  rw [if_neg (show ¬ (is_supported filename = false) from by rw [hsup]; simp)]
  rw [if_neg (show ¬ (MAX_FILE_SIZE < content.length) from by omega)]
  rw [hdisp]

theorem process_file_extractor_ok (ex : Extractors) (content : List Nat)
    (filename t : List Char)
    (hsize : content.length ≤ MAX_FILE_SIZE)
    (hsup : is_supported filename = true)
    (hdisp : dispatchExtractor ex (get_file_extension filename) content
      = some (.ok t)) :
    process_file ex content filename
      = ⟨true, some t, none, some (get_file_extension filename)⟩ := by
  unfold process_file
  rw [if_neg (show ¬ (is_supported filename = false) from by rw [hsup]; simp)]
  rw [if_neg (show ¬ (MAX_FILE_SIZE < content.length) from by omega)]
  rw [hdisp]

theorem dispatch_xls (ex : Extractors) (content : List Nat) :
    dispatchExtractor ex ("xls".toList) content = some (ex.xlsx content) := by
  unfold dispatchExtractor
  rw [if_neg (by decide), if_neg (by decide), if_neg (by decide),
    if_neg (by decide), if_neg (by decide),
    if_pos (show "xls".toList = "xlsx".toList ∨ "xls".toList = "xls".toList
      from Or.inr rfl)]

/-- Claim C8, amended: the supported-format set is exactly the seven
extensions `txt, pdf, docx, json, csv, xlsx, xls` (with `xls` dispatched to
the XLSX extractor); any filename whose lowercased last-dot extension is
outside this set yields a `success=False` unsupported-format result, every
extractor exception is caught and returned as a `success=False` result with
an error message, a successful extraction yields `success=True` with the
text, and every failure carries an error entry (the function never raises). -/
theorem claim_C8_theorem :
    (SUPPORTED_FORMATS.map Prod.fst
        = ["txt".toList, "pdf".toList, "docx".toList, "json".toList,
           "csv".toList, "xlsx".toList, "xls".toList]) ∧
    (∀ (ex : Extractors) (content : List Nat) (filename : List Char),
      get_file_extension filename ∉ SUPPORTED_FORMATS.map Prod.fst →
      process_file ex content filename
        = ⟨false, none,
            some (("Formato no soportado: ".toList) ++ get_file_extension filename),
            none⟩) ∧
    (∀ (ex : Extractors) (content : List Nat) (filename e : List Char),
      content.length ≤ MAX_FILE_SIZE → is_supported filename = true →
      dispatchExtractor ex (get_file_extension filename) content = some (.error e) →
      process_file ex content filename
        = ⟨false, none, some (("Error procesando archivo: ".toList) ++ e), none⟩) ∧
    (∀ (ex : Extractors) (content : List Nat) (filename t : List Char),
      content.length ≤ MAX_FILE_SIZE → is_supported filename = true →
      dispatchExtractor ex (get_file_extension filename) content = some (.ok t) →
      process_file ex content filename
        = ⟨true, some t, none, some (get_file_extension filename)⟩) ∧
    (∀ (ex : Extractors) (content : List Nat),
      dispatchExtractor ex ("xls".toList) content = some (ex.xlsx content)) ∧
    (∀ (ex : Extractors) (content : List Nat) (filename : List Char),
      (process_file ex content filename).success = false →
      (process_file ex content filename).error.isSome = true) :=
  ⟨by decide, process_file_unsupported, process_file_extractor_error,
   process_file_extractor_ok, dispatch_xls, process_file_failure_has_error⟩

/-- Witness for the amended C8 at concrete inputs. -/
theorem claim_C8_witness :
    process_file ⟨okBytes, okBytes, okBytes, okBytes, okBytes, okBytes⟩
        [1] ("notes.md".toList)
      = ⟨false, none,
          some (("Formato no soportado: ".toList) ++ get_file_extension ("notes.md".toList)),
          none⟩ ∧
    process_file ⟨okBytes, okBytes, okBytes, okBytes, okBytes, okBytes⟩
        [1] ("notes.txt".toList)
      = ⟨true, some ("hello".toList), none, some (get_file_extension ("notes.txt".toList))⟩ :=
  ⟨claim_C8_theorem.2.1 ⟨okBytes, okBytes, okBytes, okBytes, okBytes, okBytes⟩
     [1] ("notes.md".toList) (by decide),
   claim_C8_theorem.2.2.2.1 ⟨okBytes, okBytes, okBytes, okBytes, okBytes, okBytes⟩
     [1] ("notes.txt".toList) ("hello".toList) (by decide) (by decide) rfl⟩


theorem paragraphStep_eq_packStep {st : ChunkState} {p : List Char}
    (hp : ¬ MAX_CHUNK_SIZE < p.length) :
    paragraphStep st p = packStep MAX_CHUNK_SIZE (pyJoin ['\n', '\n']) st p := by
  unfold paragraphStep
  rw [if_neg hp]

theorem foldl_paragraphStep_eq (ps : List (List Char))
    (hps : ∀ p ∈ ps, p.length ≤ MAX_CHUNK_SIZE) :
    ∀ st : ChunkState,
      ps.foldl paragraphStep st
        = ps.foldl (packStep MAX_CHUNK_SIZE (pyJoin ['\n', '\n'])) st := by
  induction ps with
  | nil => intro st; rfl
  | cons p ps ih =>
    intro st
    simp only [List.foldl_cons]
    rw [paragraphStep_eq_packStep (by have := hps p (by simp); omega)]
    exact ih (fun q hq => hps q (by simp [hq])) _

theorem foldl_packStep_grouped (B : Nat) (join : List (List Char) → List Char) :
    ∀ (segs : List (List Char)) (st : ChunkState) (G : List (List (List Char))),
      st.chunks = G.map join →
      (∀ g ∈ G, g ≠ []) →
      (st.current_chunk = [] → G = []) →
      ∃ G2,
        (segs.foldl (packStep B join) st).chunks = G2.map join ∧
        (∀ g ∈ G2, g ≠ []) ∧
        ((segs.foldl (packStep B join) st).current_chunk = [] → G2 = []) ∧
        G2.flatten ++ (segs.foldl (packStep B join) st).current_chunk
          = G.flatten ++ st.current_chunk ++ segs := by
  intro segs
  induction segs with
  | nil =>
    intro st G h1 h2 h3
    exact ⟨G, h1, h2, h3, by simp⟩
  | cons s segs ih =>
    intro st G h1 h2 h3
    simp only [List.foldl_cons]
    by_cases hcond : B < st.current_length + s.length + 2
    · by_cases hcur : st.current_chunk = []
      · have hG : G = [] := h3 hcur
        subst hG
        have hstep : packStep B join st s
            = ⟨st.chunks, [s], s.length⟩ := by
          unfold packStep
          rw [if_pos hcond, if_pos hcur]
          simp
        rw [hstep]
        obtain ⟨G2, g1, g2, g3, g4⟩ := ih ⟨st.chunks, [s], s.length⟩ [] h1 (by simp)
          (by intro h; exact absurd h (by simp))
        refine ⟨G2, g1, g2, g3, ?_⟩
        rw [g4]
        simp [hcur]
      · have hstep : packStep B join st s
            = ⟨st.chunks ++ [join st.current_chunk], [s], s.length⟩ := by
          unfold packStep
          rw [if_pos hcond, if_neg hcur]
        rw [hstep]
        obtain ⟨G2, g1, g2, g3, g4⟩ := ih
          ⟨st.chunks ++ [join st.current_chunk], [s], s.length⟩
          (G ++ [st.current_chunk])
          (by simp [h1])
          (by
            intro g hg
            rcases List.mem_append.mp hg with hg | hg
            · exact h2 g hg
            · rw [List.mem_singleton.mp hg]
              exact hcur)
          (by intro h; exact absurd h (by simp))
        refine ⟨G2, g1, g2, g3, ?_⟩
        rw [g4]
        simp [List.append_assoc]
    · have hstep : packStep B join st s
          = ⟨st.chunks, st.current_chunk ++ [s],
             st.current_length + s.length + 2⟩ := by
        unfold packStep
        rw [if_neg hcond]
      rw [hstep]
      obtain ⟨G2, g1, g2, g3, g4⟩ := ih
        ⟨st.chunks, st.current_chunk ++ [s], st.current_length + s.length + 2⟩
        G h1 h2
        (by intro h; exact absurd h (by simp))
      refine ⟨G2, g1, g2, g3, ?_⟩
      rw [g4]
      simp [List.append_assoc]

theorem translateChunks_join_of_small (text : List Char)
    (hps : ∀ p ∈ splitOnPair '\n' '\n' text, p.length ≤ MAX_CHUNK_SIZE) :
    pyJoin ['\n', '\n'] (translateChunks text) = text := by
  simp only [translateChunks]
  rw [foldl_paragraphStep_eq _ hps]
  obtain ⟨G2, g1, g2, g3, g4⟩ := foldl_packStep_grouped MAX_CHUNK_SIZE
    (pyJoin ['\n', '\n']) (splitOnPair '\n' '\n' text) ⟨[], [], 0⟩ []
    rfl (by simp) (fun _ => rfl)
  simp only [List.flatten_nil, List.nil_append] at g4
  set st := (splitOnPair '\n' '\n' text).foldl
    (packStep MAX_CHUNK_SIZE (pyJoin ['\n', '\n'])) ⟨[], [], 0⟩ with hst
  by_cases hcur : st.current_chunk = []
  · exfalso
    have hG2 : G2 = [] := g3 hcur
    rw [hG2, hcur] at g4
    simp at g4
    exact splitOnPair_ne_nil '\n' '\n' text g4
  · rw [if_neg hcur, g1]
    rw [show G2.map (pyJoin ['\n', '\n']) ++ [pyJoin ['\n', '\n'] st.current_chunk]
        = (G2 ++ [st.current_chunk]).map (pyJoin ['\n', '\n']) from by simp]
    rw [pyJoin_map_pyJoin _ (G2 ++ [st.current_chunk])
      (by
        intro g hg
        rcases List.mem_append.mp hg with hg | hg
        · exact g2 g hg
        · rw [List.mem_singleton.mp hg]
          exact hcur)]
    rw [show (G2 ++ [st.current_chunk]).flatten = G2.flatten ++ st.current_chunk
        from by simp]
    rw [g4]
    exact pyJoin_splitOnPair '\n' '\n' text


theorem packStep_flush_empty_eq (B : Nat) (join : List (List Char) → List Char)
    (st : ChunkState) (seg : List Char)
    (hcond : B < st.current_length + seg.length + 2)
    (hcur : st.current_chunk = []) :
    packStep B join st seg = ⟨st.chunks, [seg], seg.length⟩ := by
  unfold packStep
  rw [if_pos hcond, if_pos hcur]
  simp

theorem packStep_flush_eq (B : Nat) (join : List (List Char) → List Char)
    (st : ChunkState) (seg : List Char)
    (hcond : B < st.current_length + seg.length + 2)
    (hcur : st.current_chunk ≠ []) :
    packStep B join st seg
      = ⟨st.chunks ++ [join st.current_chunk], [seg], seg.length⟩ := by
  unfold packStep
  rw [if_pos hcond, if_neg hcur]

theorem packStep_append_eq (B : Nat) (join : List (List Char) → List Char)
    (st : ChunkState) (seg : List Char)
    (hcond : ¬ B < st.current_length + seg.length + 2) :
    packStep B join st seg
      = ⟨st.chunks, st.current_chunk ++ [seg],
         st.current_length + seg.length + 2⟩ := by
  unfold packStep
  rw [if_neg hcond]

/-- A long text that is a single paragraph and a single oversized sentence
followed by `'. '` and a strippable sentence: chunking it is lossy. -/
def exC2 : List Char :=
  List.replicate 4501 'a' ++ '.' :: ' ' :: ' ' :: 'b' :: []

theorem exC2_chunks :
    translateChunks exC2 = [List.replicate 4501 'a', ['b']] := by
  have hnl : ∀ c ∈ exC2, c ≠ '\n' := by
    intro c hc
    rcases List.mem_append.mp hc with h | h
    · rw [mem_replicate_a h]; decide
    · exact (by decide : ∀ c ∈ ('.' :: ' ' :: ' ' :: 'b' :: []), c ≠ '\n') c h
  have hdotp : ∀ c ∈ List.replicate 4501 'a', c ≠ '.' := by
    intro c hc
    rw [mem_replicate_a hc]
    decide
  have hsent : splitOnPair '.' ' ' exC2
      = [List.replicate 4501 'a', ' ' :: 'b' :: []] := by
    unfold exC2
    rw [splitOnPair_append_sep '.' ' ' (List.replicate 4501 'a')
      (' ' :: 'b' :: []) hdotp]
    rw [(by decide : splitOnPair '.' ' ' (' ' :: 'b' :: []) = [' ' :: 'b' :: []])]
  have hstep1 : sentenceStep ⟨[], [], 0⟩ (List.replicate 4501 'a')
      = ⟨[], [List.replicate 4501 'a'], (List.replicate 4501 'a').length⟩ := by
    rw [sentenceStep_eq]
    rw [pyStrip_no_space _ (fun c hc => by rw [mem_replicate_a hc]; decide)]
    rw [if_neg (show ¬ (List.replicate 4501 'a' = [])
      from replicate_ne_nil_of_pos (by omega))]
    exact packStep_flush_empty_eq MAX_CHUNK_SIZE _ ⟨[], [], 0⟩ _
      (by rw [List.length_replicate]; decide)
      rfl
  have hstep2 : sentenceStep
      ⟨[], [List.replicate 4501 'a'], (List.replicate 4501 'a').length⟩
      (' ' :: 'b' :: [])
      = ⟨[List.replicate 4501 'a'], [['b']], 1⟩ := by
    rw [sentenceStep_eq]
    rw [(by decide : pyStrip (' ' :: 'b' :: []) = ['b'])]
    rw [if_neg (by decide : ¬ (['b'] : List Char) = [])]
    exact packStep_flush_eq MAX_CHUNK_SIZE _ _ _
      (by
        simp only [List.length_replicate]
        decide)
      (by decide)
  simp only [translateChunks]
  rw [splitOnPair_no_occ '\n' '\n' exC2 hnl]
  rw [List.foldl_cons, List.foldl_nil]
  rw [show paragraphStep ⟨[], [], 0⟩ exC2
      = (splitOnPair '.' ' ' exC2).foldl sentenceStep ⟨[], [], 0⟩ from by
    unfold paragraphStep
    rw [if_pos (show MAX_CHUNK_SIZE < exC2.length from by
      simp only [exC2, List.length_append, List.length_replicate, List.length_cons,
        List.length_nil, MAX_CHUNK_SIZE]
      omega)]]
  rw [hsent]
  rw [List.foldl_cons, List.foldl_cons, List.foldl_nil]
  rw [hstep1, hstep2]
  show [List.replicate 4501 'a'] ++ (if ([['b']] : List (List Char)) = [] then []
    else [pyJoin ['\n', '\n'] [['b']]]) = [List.replicate 4501 'a', ['b']]
  rw [if_neg (by decide : ¬ ([['b']] : List (List Char)) = [])]
  rfl

/-- Claim C2 as stated is false: the 4505-character text made of a single
4501-character sentence, `'. '`, and a second sentence `" b"` is longer than
4500, but the chunker drops the `'. '` separator and the stripped space, so
rejoining the chunks (even with an identity translation) cannot reproduce
the input. -/
theorem claim_C2_counterexample :
    MAX_CHUNK_SIZE < exC2.length ∧
    (translate_text okId exC2 ("es".toList)).result ≠ exC2 := by
  have hlen : exC2.length = 4505 := by
    simp only [exC2, List.length_append, List.length_replicate, List.length_cons,
      List.length_nil]
  refine ⟨by rw [hlen]; decide, ?_⟩
  unfold translate_text
  rw [if_neg (show ¬ (exC2.length ≤ MAX_CHUNK_SIZE) from by rw [hlen]; decide)]
  rw [if_neg (show ¬ ("es".toList = source_language) from by decide)]
  rw [exC2_chunks, runCalls_okId]
  show ¬ (List.replicate 4501 'a' ++ ['\n', '\n'] ++ ['b'] = exC2)
  intro heq
  have hl := congrArg List.length heq
  rw [hlen] at hl
  simp only [List.length_append, List.length_replicate, List.length_cons,
    List.length_nil] at hl
  omega

/-- Claim C2, amended: for an input text longer than `MAX_CHUNK_SIZE` all of
whose paragraphs (split on `"\n\n"`) fit within `MAX_CHUNK_SIZE`, the
splitting loses nothing: joining the produced chunks with `"\n\n"` yields
exactly the original text, and translating each chunk with the identity
oracle reproduces the input character for character.  (When some paragraph
exceeds the bound, sentence splitting discards the `'. '` separators and
strips whitespace, so the roundtrip fails — see the counterexample.) -/
theorem claim_C2_theorem (text : List Char)
    (hlong : MAX_CHUNK_SIZE < text.length)
    (hps : ∀ p ∈ splitOnPair '\n' '\n' text, p.length ≤ MAX_CHUNK_SIZE) :
    pyJoin ['\n', '\n'] (translateChunks text) = text ∧
    (translate_text okId text ("es".toList)).result = text := by
  have hjoin := translateChunks_join_of_small text hps
  refine ⟨hjoin, ?_⟩
  unfold translate_text
  rw [if_neg (show ¬ (text.length ≤ MAX_CHUNK_SIZE) from by omega)]
  rw [if_neg (show ¬ ("es".toList = source_language) from by decide)]
  rw [runCalls_okId]
  exact hjoin

/-- A 6002-character text of two fitting paragraphs. -/
def exC2w : List Char :=
  List.replicate 3000 'a' ++ '\n' :: '\n' :: List.replicate 3000 'a'

theorem exC2w_split :
    splitOnPair '\n' '\n' exC2w = [List.replicate 3000 'a', List.replicate 3000 'a'] := by
  unfold exC2w
  rw [splitOnPair_append_sep '\n' '\n' (List.replicate 3000 'a')
    (List.replicate 3000 'a') (fun c hc => by rw [mem_replicate_a hc]; decide)]
  rw [splitOnPair_no_occ '\n' '\n' (List.replicate 3000 'a')
    (fun c hc => by rw [mem_replicate_a hc]; decide)]

/-- Witness for the amended C2 at a concrete 6002-character input. -/
theorem claim_C2_witness :
    pyJoin ['\n', '\n'] (translateChunks exC2w) = exC2w ∧
    (translate_text okId exC2w ("es".toList)).result = exC2w :=
  claim_C2_theorem exC2w
    (by
      simp only [exC2w, List.length_append, List.length_replicate, List.length_cons,
        MAX_CHUNK_SIZE]
      omega)
    (by
      intro p hp
      rw [exC2w_split] at hp
      rcases List.mem_cons.mp hp with h | h
      · subst h
        simp only [List.length_replicate, MAX_CHUNK_SIZE]
        omega
      · rw [List.mem_singleton.mp h]
        simp only [List.length_replicate, MAX_CHUNK_SIZE]
        omega)


/-- Greedy adjacency between consecutive chunk groups: the earlier group's
accumulated weight plus the later group's first segment (plus the 2-character
allowance) exceeds the bound, so the packer could not have kept absorbing. -/
def greedyAdj (B : Nat) (g g2 : List (List Char)) : Prop :=
  B < segWeight g + (g2.headD []).length + 2

theorem segWeight_append_single (g : List (List Char)) (s : List Char) :
    segWeight (g ++ [s]) = segWeight g + (s.length + 2) := by
  simp [segWeight]

theorem headD_append_of_ne_nil {g : List (List Char)} (s : List Char)
    (h : g ≠ []) : (g ++ [s]).headD [] = g.headD [] := by
  cases g with
  | nil => exact absurd rfl h
  | cons x xs => rfl

theorem foldl_packStep_chain (B : Nat) (join : List (List Char) → List Char) :
    ∀ (segs : List (List Char)) (st : ChunkState) (G : List (List (List Char))),
      st.chunks = G.map join →
      (∀ g ∈ G, g ≠ []) →
      (st.current_chunk = [] → G = [] ∧ st.current_length = 0) →
      List.Chain' (greedyAdj B)
        (G ++ (if st.current_chunk = [] then [] else [st.current_chunk])) →
      st.current_length ≤ segWeight st.current_chunk →
      ∃ G2,
        (segs.foldl (packStep B join) st).chunks = G2.map join ∧
        (∀ g ∈ G2, g ≠ []) ∧
        ((segs.foldl (packStep B join) st).current_chunk = [] →
          G2 = [] ∧ (segs.foldl (packStep B join) st).current_length = 0) ∧
        List.Chain' (greedyAdj B)
          (G2 ++ (if (segs.foldl (packStep B join) st).current_chunk = [] then []
                  else [(segs.foldl (packStep B join) st).current_chunk])) ∧
        (segs.foldl (packStep B join) st).current_length
          ≤ segWeight (segs.foldl (packStep B join) st).current_chunk ∧
        G2.flatten ++ (segs.foldl (packStep B join) st).current_chunk
          = G.flatten ++ st.current_chunk ++ segs := by
  intro segs
  induction segs with
  | nil =>
    intro st G h1 h2 h3 h4 h5
    exact ⟨G, h1, h2, h3, h4, h5, by simp⟩
  | cons s segs ih =>
    intro st G h1 h2 h3 h4 h5
    simp only [List.foldl_cons]
    by_cases hcond : B < st.current_length + s.length + 2
    · by_cases hcur : st.current_chunk = []
      · obtain ⟨hG, hlen0⟩ := h3 hcur
        subst hG
        rw [packStep_flush_empty_eq B join st s hcond hcur]
        obtain ⟨G2, g1, g2, g3, g4, g5, g6⟩ := ih ⟨st.chunks, [s], s.length⟩ []
          h1 (by simp)
          (by intro h; exact absurd h (by simp))
          (by
            rw [if_neg (show ¬ (([s] : List (List Char)) = []) from by simp)]
            exact List.chain'_singleton _)
          (by
            show s.length ≤ segWeight [s]
            simp [segWeight])
        refine ⟨G2, g1, g2, g3, g4, g5, ?_⟩
        rw [g6]
        simp [hcur]
      · rw [packStep_flush_eq B join st s hcond hcur]
        rw [if_neg hcur] at h4
        obtain ⟨G2, g1, g2, g3, g4, g5, g6⟩ := ih
          ⟨st.chunks ++ [join st.current_chunk], [s], s.length⟩
          (G ++ [st.current_chunk])
          (by simp [h1])
          (by
            intro g hg
            rcases List.mem_append.mp hg with hg | hg
            · exact h2 g hg
            · rw [List.mem_singleton.mp hg]
              exact hcur)
          (by intro h; exact absurd h (by simp))
          (by
            rw [if_neg (show ¬ (([s] : List (List Char)) = []) from by simp)]
            rw [List.chain'_append]
            refine ⟨h4, List.chain'_singleton _, ?_⟩
            intro x hx y hy
            rw [List.getLast?_concat] at hx
            simp only [Option.mem_def, Option.some.injEq] at hx
            simp only [List.head?_cons, Option.mem_def, Option.some.injEq] at hy
            subst hx
            subst hy
            show B < segWeight st.current_chunk + (([s] : List (List Char)).headD []).length + 2
            simp only [List.headD_cons]
            omega)
          (by
            show s.length ≤ segWeight [s]
            simp [segWeight])
        refine ⟨G2, g1, g2, g3, g4, g5, ?_⟩
        rw [g6]
        simp [List.append_assoc]
    · rw [packStep_append_eq B join st s hcond]
      by_cases hcur : st.current_chunk = []
      · obtain ⟨hG, hlen0⟩ := h3 hcur
        subst hG
        obtain ⟨G2, g1, g2, g3, g4, g5, g6⟩ := ih
          ⟨st.chunks, st.current_chunk ++ [s], st.current_length + s.length + 2⟩ []
          h1 (by simp)
          (by
            intro h
            rw [hcur] at h
            simp at h)
          (by
            rw [if_neg (show ¬ (st.current_chunk ++ [s] = []) from by simp)]
            exact List.chain'_singleton _)
          (by
            show st.current_length + s.length + 2 ≤ segWeight (st.current_chunk ++ [s])
            rw [segWeight_append_single]
            omega)
        refine ⟨G2, g1, g2, g3, g4, g5, ?_⟩
        rw [g6]
        simp [List.append_assoc]
      · rw [if_neg hcur] at h4
        obtain ⟨G2, g1, g2, g3, g4, g5, g6⟩ := ih
          ⟨st.chunks, st.current_chunk ++ [s], st.current_length + s.length + 2⟩ G
          h1 h2
          (by
            intro h
            exact absurd h (by simp [hcur]))
          (by
            rw [if_neg (show ¬ (st.current_chunk ++ [s] = []) from by simp)]
            rw [List.chain'_append] at h4 ⊢
            refine ⟨h4.1, List.chain'_singleton _, ?_⟩
            intro x hx y hy
            simp only [List.head?_cons, Option.mem_def, Option.some.injEq] at hy
            subst hy
            have := h4.2.2 x hx st.current_chunk (by simp)
            show B < segWeight x + ((st.current_chunk ++ [s]).headD []).length + 2
            rw [headD_append_of_ne_nil s hcur]
            exact this)
          (by
            show st.current_length + s.length + 2 ≤ segWeight (st.current_chunk ++ [s])
            rw [segWeight_append_single]
            omega)
        refine ⟨G2, g1, g2, g3, g4, g5, ?_⟩
        rw [g6]
        simp [List.append_assoc]


theorem foldl_ttsStep_eq :
    ∀ (ss : List (List Char)) (st : ChunkState),
      ss.foldl ttsStep st
        = ((ss.map pyStrip).filter (fun s => !List.isEmpty s)).foldl
            (packStep MAX_TTS_SIZE (fun g => pyJoin ['.', ' '] g ++ ['.'])) st
  | [], st => rfl
  | s :: ss, st => by
    simp only [List.foldl_cons, List.map_cons, List.filter_cons]
    by_cases h : pyStrip s = []
    · rw [ttsStep_eq, if_pos h, h]
      simp only [List.isEmpty_nil, Bool.not_true, Bool.false_eq_true, if_false]
      exact foldl_ttsStep_eq ss st
    · have hne : (!List.isEmpty (pyStrip s)) = true := by
        cases hs : pyStrip s with
        | nil => exact absurd hs h
        | cons a l => rfl
      rw [ttsStep_eq, if_neg h]
      rw [if_pos hne]
      rw [List.foldl_cons]
      exact foldl_ttsStep_eq ss _

theorem ttsChunks_greedy (text : List Char) :
    ∃ G, ttsChunks text = G.map (fun g => pyJoin ['.', ' '] g ++ ['.']) ∧
      (∀ g ∈ G, g ≠ []) ∧
      G.flatten = ((ttsSentences text).map pyStrip).filter (fun s => !List.isEmpty s) ∧
      List.Chain' (greedyAdj MAX_TTS_SIZE) G := by
  simp only [ttsChunks]
  rw [foldl_ttsStep_eq]
  obtain ⟨G2, g1, g2, g3, g4, g5, g6⟩ := foldl_packStep_chain MAX_TTS_SIZE
    (fun g => pyJoin ['.', ' '] g ++ ['.'])
    (((ttsSentences text).map pyStrip).filter (fun s => !List.isEmpty s))
    ⟨[], [], 0⟩ [] rfl (by simp) (fun _ => ⟨rfl, rfl⟩)
    (by rw [if_pos rfl]; simp)
    (by simp [segWeight])
  simp only [List.flatten_nil, List.nil_append] at g6
  set st := (((ttsSentences text).map pyStrip).filter (fun s => !List.isEmpty s)).foldl
    (packStep MAX_TTS_SIZE (fun g => pyJoin ['.', ' '] g ++ ['.'])) ⟨[], [], 0⟩ with hst
  by_cases hcur : st.current_chunk = []
  · obtain ⟨hG2, _⟩ := g3 hcur
    subst hG2
    refine ⟨[], ?_, by simp, ?_, by simp⟩
    · rw [if_pos hcur, g1]
      simp
    · rw [hcur] at g6
      simpa using g6
  · refine ⟨G2 ++ [st.current_chunk], ?_, ?_, ?_, ?_⟩
    · rw [if_neg hcur, g1]
      simp
    · intro g hg
      rcases List.mem_append.mp hg with hg | hg
      · exact g2 g hg
      · rw [List.mem_singleton.mp hg]
        exact hcur
    · rw [show (G2 ++ [st.current_chunk]).flatten = G2.flatten ++ st.current_chunk
        from by simp]
      exact g6
    · rw [if_neg hcur] at g4
      exact g4

/-- An emitted chunk of the translate chunker is its segment group joined
with `"\n\n"` (a paragraph-branch or final flush) or with `' '` (a
sentence-branch flush of an oversized paragraph). -/
def chunkOfGroup (c : List Char) (g : List (List Char)) : Prop :=
  c = pyJoin ['\n', '\n'] g ∨ c = pyJoin [' '] g

/-- The join a flush applies while the translate chunker is processing a
given segment: `' '` inside the sentence loop of an oversized paragraph
(tag `true`), `"\n\n"` in the paragraph branch (tag `false`). -/
def segJoin : Bool × List Char → List (List Char) → List Char
  | (true, _) => pyJoin [' ']
  | (false, _) => pyJoin ['\n', '\n']

/-- One step of the translate chunker over a tagged segment: the shared
`packStep` body with the branch-specific flush join. -/
def taggedStep (st : ChunkState) (a : Bool × List Char) : ChunkState :=
  packStep MAX_CHUNK_SIZE (segJoin a) st a.2

/-- The tagged segment stream one paragraph contributes to the translate
chunker: its stripped nonempty sentences when oversized, itself otherwise. -/
def taggedOfParagraph (p : List Char) : List (Bool × List Char) :=
  if MAX_CHUNK_SIZE < p.length then
    (((splitOnPair '.' ' ' p).map pyStrip).filter (fun s => !List.isEmpty s)).map
      (fun s => (true, s))
  else [(false, p)]

/-- The atomic segments the translate chunker scans, in order: each
paragraph whole when it fits, else the stripped nonempty sentences of the
oversized paragraph. -/
def translateSegs (text : List Char) : List (List Char) :=
  ((splitOnPair '\n' '\n' text).map (fun p =>
    if MAX_CHUNK_SIZE < p.length then
      ((splitOnPair '.' ' ' p).map pyStrip).filter (fun s => !List.isEmpty s)
    else [p])).flatten

theorem chunkOfGroup_segJoin (a : Bool × List Char) (g : List (List Char)) :
    chunkOfGroup (segJoin a g) g := by
  obtain ⟨tag, s⟩ := a
  cases tag with
  | false => exact Or.inl rfl
  | true => exact Or.inr rfl

theorem forall2_append_single {P : List Char → List (List Char) → Prop}
    {l : List (List Char)} {G : List (List (List Char))}
    {c : List Char} {g : List (List Char)}
    (h : List.Forall₂ P l G) (hcg : P c g) :
    List.Forall₂ P (l ++ [c]) (G ++ [g]) := by
  induction h with
  | nil => exact List.Forall₂.cons hcg List.Forall₂.nil
  | cons h1 _ ih => exact List.Forall₂.cons h1 ih

theorem foldl_sentenceStep_tagged :
    ∀ (ss : List (List Char)) (st : ChunkState),
      ss.foldl sentenceStep st
        = ((((ss.map pyStrip).filter (fun s => !List.isEmpty s)).map
            (fun s => (true, s))).foldl taggedStep st)
  | [], _ => rfl
  | s :: ss, st => by
    simp only [List.foldl_cons, List.map_cons, List.filter_cons]
    by_cases h : pyStrip s = []
    · rw [sentenceStep_eq, if_pos h, h]
      simp only [List.isEmpty_nil, Bool.not_true, Bool.false_eq_true, if_false]
      exact foldl_sentenceStep_tagged ss st
    · have hne : (!List.isEmpty (pyStrip s)) = true := by
        cases hs : pyStrip s with
        | nil => exact absurd hs h
        | cons a l => rfl
      rw [sentenceStep_eq, if_neg h, if_pos hne]
      rw [List.map_cons, List.foldl_cons]
      exact foldl_sentenceStep_tagged ss _

theorem foldl_paragraphStep_tagged :
    ∀ (ps : List (List Char)) (st : ChunkState),
      ps.foldl paragraphStep st
        = ((ps.map taggedOfParagraph).flatten).foldl taggedStep st
  | [], _ => rfl
  | p :: ps, st => by
    simp only [List.foldl_cons, List.map_cons, List.flatten_cons]
    rw [List.foldl_append]
    have hstep : paragraphStep st p = (taggedOfParagraph p).foldl taggedStep st := by
      unfold paragraphStep taggedOfParagraph
      by_cases h : MAX_CHUNK_SIZE < p.length
      · rw [if_pos h, if_pos h]
        exact foldl_sentenceStep_tagged _ st
      · rw [if_neg h, if_neg h]
        rfl
    rw [hstep]
    exact foldl_paragraphStep_tagged ps _

theorem taggedOfParagraph_snd (p : List Char) :
    (taggedOfParagraph p).map Prod.snd
      = (if MAX_CHUNK_SIZE < p.length then
          ((splitOnPair '.' ' ' p).map pyStrip).filter (fun s => !List.isEmpty s)
        else [p]) := by
  unfold taggedOfParagraph
  by_cases h : MAX_CHUNK_SIZE < p.length
  · rw [if_pos h, if_pos h]
    simp [List.map_map]
  · rw [if_neg h, if_neg h]
    rfl

theorem translateTagged_snd (text : List Char) :
    (((splitOnPair '\n' '\n' text).map taggedOfParagraph).flatten).map Prod.snd
      = translateSegs text := by
  unfold translateSegs
  rw [List.map_flatten, List.map_map]
  congr 1
  apply List.map_congr_left
  intro p _
  exact taggedOfParagraph_snd p

theorem foldl_taggedStep_chain :
    ∀ (segs : List (Bool × List Char)) (st : ChunkState)
      (G : List (List (List Char))),
      List.Forall₂ chunkOfGroup st.chunks G →
      (∀ g ∈ G, g ≠ []) →
      (st.current_chunk = [] → G = [] ∧ st.current_length = 0) →
      List.Chain' (greedyAdj MAX_CHUNK_SIZE)
        (G ++ (if st.current_chunk = [] then [] else [st.current_chunk])) →
      st.current_length ≤ segWeight st.current_chunk →
      ∃ G2,
        List.Forall₂ chunkOfGroup (segs.foldl taggedStep st).chunks G2 ∧
        (∀ g ∈ G2, g ≠ []) ∧
        ((segs.foldl taggedStep st).current_chunk = [] →
          G2 = [] ∧ (segs.foldl taggedStep st).current_length = 0) ∧
        List.Chain' (greedyAdj MAX_CHUNK_SIZE)
          (G2 ++ (if (segs.foldl taggedStep st).current_chunk = [] then []
                  else [(segs.foldl taggedStep st).current_chunk])) ∧
        (segs.foldl taggedStep st).current_length
          ≤ segWeight (segs.foldl taggedStep st).current_chunk ∧
        G2.flatten ++ (segs.foldl taggedStep st).current_chunk
          = G.flatten ++ st.current_chunk ++ segs.map Prod.snd := by
  intro segs
  induction segs with
  | nil =>
    intro st G h1 h2 h3 h4 h5
    exact ⟨G, h1, h2, h3, h4, h5, by simp⟩
  | cons a segs ih =>
    intro st G h1 h2 h3 h4 h5
    simp only [List.foldl_cons]
    rw [show taggedStep st a = packStep MAX_CHUNK_SIZE (segJoin a) st a.2 from rfl]
    by_cases hcond : MAX_CHUNK_SIZE < st.current_length + a.2.length + 2
    · by_cases hcur : st.current_chunk = []
      · obtain ⟨hG, hlen0⟩ := h3 hcur
        subst hG
        rw [packStep_flush_empty_eq MAX_CHUNK_SIZE (segJoin a) st a.2 hcond hcur]
        obtain ⟨G2, g1, g2, g3, g4, g5, g6⟩ := ih ⟨st.chunks, [a.2], a.2.length⟩ []
          h1 (by simp)
          (by intro h; exact absurd h (by simp))
          (by
            rw [if_neg (show ¬ (([a.2] : List (List Char)) = []) from by simp)]
            exact List.chain'_singleton _)
          (by
            show a.2.length ≤ segWeight [a.2]
            simp [segWeight])
        refine ⟨G2, g1, g2, g3, g4, g5, ?_⟩
        rw [g6]
        simp [hcur]
      · rw [packStep_flush_eq MAX_CHUNK_SIZE (segJoin a) st a.2 hcond hcur]
        rw [if_neg hcur] at h4
        obtain ⟨G2, g1, g2, g3, g4, g5, g6⟩ := ih
          ⟨st.chunks ++ [segJoin a st.current_chunk], [a.2], a.2.length⟩
          (G ++ [st.current_chunk])
          (forall2_append_single h1 (chunkOfGroup_segJoin a st.current_chunk))
          (by
            intro g hg
            rcases List.mem_append.mp hg with hg | hg
            · exact h2 g hg
            · rw [List.mem_singleton.mp hg]
              exact hcur)
          (by intro h; exact absurd h (by simp))
          (by
            rw [if_neg (show ¬ (([a.2] : List (List Char)) = []) from by simp)]
            rw [List.chain'_append]
            refine ⟨h4, List.chain'_singleton _, ?_⟩
            intro x hx y hy
            rw [List.getLast?_concat] at hx
            simp only [Option.mem_def, Option.some.injEq] at hx
            simp only [List.head?_cons, Option.mem_def, Option.some.injEq] at hy
            subst hx
            subst hy
            show MAX_CHUNK_SIZE
              < segWeight st.current_chunk + (([a.2] : List (List Char)).headD []).length + 2
            simp only [List.headD_cons]
            omega)
          (by
            show a.2.length ≤ segWeight [a.2]
            simp [segWeight])
        refine ⟨G2, g1, g2, g3, g4, g5, ?_⟩
        rw [g6]
        simp [List.append_assoc]
    · rw [packStep_append_eq MAX_CHUNK_SIZE (segJoin a) st a.2 hcond]
      by_cases hcur : st.current_chunk = []
      · obtain ⟨hG, hlen0⟩ := h3 hcur
        subst hG
        obtain ⟨G2, g1, g2, g3, g4, g5, g6⟩ := ih
          ⟨st.chunks, st.current_chunk ++ [a.2],
           st.current_length + a.2.length + 2⟩ []
          h1 (by simp)
          (by
            intro h
            rw [hcur] at h
            simp at h)
          (by
            rw [if_neg (show ¬ (st.current_chunk ++ [a.2] = []) from by simp)]
            exact List.chain'_singleton _)
          (by
            show st.current_length + a.2.length + 2
              ≤ segWeight (st.current_chunk ++ [a.2])
            rw [segWeight_append_single]
            omega)
        refine ⟨G2, g1, g2, g3, g4, g5, ?_⟩
        rw [g6]
        simp [List.append_assoc]
      · rw [if_neg hcur] at h4
        obtain ⟨G2, g1, g2, g3, g4, g5, g6⟩ := ih
          ⟨st.chunks, st.current_chunk ++ [a.2],
           st.current_length + a.2.length + 2⟩ G
          h1 h2
          (by
            intro h
            exact absurd h (by simp [hcur]))
          (by
            rw [if_neg (show ¬ (st.current_chunk ++ [a.2] = []) from by simp)]
            rw [List.chain'_append] at h4 ⊢
            refine ⟨h4.1, List.chain'_singleton _, ?_⟩
            intro x hx y hy
            simp only [List.head?_cons, Option.mem_def, Option.some.injEq] at hy
            subst hy
            have hxcur := h4.2.2 x hx st.current_chunk (by simp)
            show MAX_CHUNK_SIZE
              < segWeight x + ((st.current_chunk ++ [a.2]).headD []).length + 2
            rw [headD_append_of_ne_nil a.2 hcur]
            exact hxcur)
          (by
            show st.current_length + a.2.length + 2
              ≤ segWeight (st.current_chunk ++ [a.2])
            rw [segWeight_append_single]
            omega)
        refine ⟨G2, g1, g2, g3, g4, g5, ?_⟩
        rw [g6]
        simp [List.append_assoc]

theorem translateChunks_greedy_full (text : List Char) :
    ∃ G, List.Forall₂ chunkOfGroup (translateChunks text) G ∧
      (∀ g ∈ G, g ≠ []) ∧
      G.flatten = translateSegs text ∧
      List.Chain' (greedyAdj MAX_CHUNK_SIZE) G := by
  simp only [translateChunks]
  rw [foldl_paragraphStep_tagged]
  obtain ⟨G2, g1, g2, g3, g4, g5, g6⟩ := foldl_taggedStep_chain
    (((splitOnPair '\n' '\n' text).map taggedOfParagraph).flatten) ⟨[], [], 0⟩ []
    List.Forall₂.nil (by simp) (fun _ => ⟨rfl, rfl⟩)
    (by rw [if_pos rfl]; simp)
    (by simp [segWeight])
  rw [translateTagged_snd] at g6
  simp only [List.flatten_nil, List.nil_append] at g6
  set st := ((((splitOnPair '\n' '\n' text).map taggedOfParagraph).flatten).foldl
    taggedStep ⟨[], [], 0⟩) with hst
  by_cases hcur : st.current_chunk = []
  · obtain ⟨hG2, _⟩ := g3 hcur
    subst hG2
    have hchunks : st.chunks = [] := List.forall₂_nil_right_iff.mp g1
    refine ⟨[], ?_, by simp, ?_, List.chain'_nil⟩
    · rw [if_pos hcur, hchunks]
      exact List.Forall₂.nil
    · rw [hcur] at g6
      simpa using g6
  · refine ⟨G2 ++ [st.current_chunk], ?_, ?_, ?_, ?_⟩
    · rw [if_neg hcur]
      exact forall2_append_single g1 (Or.inl rfl)
    · intro g hg
      rcases List.mem_append.mp hg with hg | hg
      · exact g2 g hg
      · rw [List.mem_singleton.mp hg]
        exact hcur
    · rw [show (G2 ++ [st.current_chunk]).flatten = G2.flatten ++ st.current_chunk
        from by simp]
      exact g6
    · rw [if_neg hcur] at g4
      exact g4

theorem packStep_append_iff (B : Nat) (join : List (List Char) → List Char)
    (st : ChunkState) (seg : List Char) (hcur : st.current_chunk ≠ []) :
    ((packStep B join st seg).current_chunk = st.current_chunk ++ [seg] ↔
      st.current_length + seg.length + 2 ≤ B) := by
  by_cases hcond : B < st.current_length + seg.length + 2
  · rw [packStep_flush_eq B join st seg hcond hcur]
    constructor
    · intro h
      exfalso
      have hl := congrArg List.length h
      simp only [List.length_cons, List.length_nil, List.length_append] at hl
      have : st.current_chunk.length = 0 := by omega
      exact hcur (List.eq_nil_of_length_eq_zero this)
    · intro h
      omega
  · rw [packStep_append_eq B join st seg hcond]
    constructor
    · intro _
      omega
    · intro _
      rfl


/-- First paragraph of the C4 counterexample text (2000 characters). -/
def exC4p1 : List Char := List.replicate 2000 'a'

/-- Second paragraph of the C4 counterexample text (2497 characters). -/
def exC4p2 : List Char := List.replicate 2497 'a'

/-- Third paragraph of the C4 counterexample text (2001 characters). -/
def exC4p3 : List Char := List.replicate 2001 'a'

/-- A 6502-character text of three fitting paragraphs on which the greedy
packer emits a first chunk that could still have absorbed the next
paragraph. -/
def exC4 : List Char :=
  exC4p1 ++ '\n' :: '\n' :: (exC4p2 ++ '\n' :: '\n' :: exC4p3)

theorem exC4p1_len : exC4p1.length = 2000 := by
  simp only [exC4p1, List.length_replicate]

theorem exC4p2_len : exC4p2.length = 2497 := by
  simp only [exC4p2, List.length_replicate]

theorem exC4p3_len : exC4p3.length = 2001 := by
  simp only [exC4p3, List.length_replicate]

theorem exC4_split :
    splitOnPair '\n' '\n' exC4 = [exC4p1, exC4p2, exC4p3] := by
  unfold exC4
  rw [splitOnPair_append_sep '\n' '\n' exC4p1 (exC4p2 ++ '\n' :: '\n' :: exC4p3)
    (fun c hc => by rw [show c = 'a' from List.eq_of_mem_replicate (show c ∈ List.replicate 2000 'a' from hc)]; decide)]
  rw [splitOnPair_append_sep '\n' '\n' exC4p2 exC4p3
    (fun c hc => by rw [show c = 'a' from List.eq_of_mem_replicate (show c ∈ List.replicate 2497 'a' from hc)]; decide)]
  rw [splitOnPair_no_occ '\n' '\n' exC4p3
    (fun c hc => by rw [show c = 'a' from List.eq_of_mem_replicate (show c ∈ List.replicate 2001 'a' from hc)]; decide)]

theorem exC4_chunks :
    translateChunks exC4 = [exC4p1, exC4p2 ++ ['\n', '\n'] ++ exC4p3] := by
  have h1 : paragraphStep ⟨[], [], 0⟩ exC4p1 = ⟨[], [exC4p1], 2002⟩ := by
    rw [paragraphStep_eq_packStep (by rw [exC4p1_len]; decide)]
    rw [packStep_append_eq _ _ _ _ (by rw [exC4p1_len]; decide)]
    rw [exC4p1_len]
    rfl
  have h2 : paragraphStep ⟨[], [exC4p1], 2002⟩ exC4p2
      = ⟨[exC4p1], [exC4p2], 2497⟩ := by
    rw [paragraphStep_eq_packStep (by rw [exC4p2_len]; decide)]
    rw [packStep_flush_eq _ _ _ _ (by rw [exC4p2_len]; decide) (by decide)]
    rw [exC4p2_len]
    rfl
  have h3 : paragraphStep ⟨[exC4p1], [exC4p2], 2497⟩ exC4p3
      = ⟨[exC4p1], [exC4p2, exC4p3], 4500⟩ := by
    rw [paragraphStep_eq_packStep (by rw [exC4p3_len]; decide)]
    rw [packStep_append_eq _ _ _ _ (by rw [exC4p3_len]; decide)]
    rw [exC4p3_len]
    rfl
  simp only [translateChunks]
  rw [exC4_split]
  rw [List.foldl_cons, List.foldl_cons, List.foldl_cons, List.foldl_nil]
  rw [h1, h2, h3]
  show [exC4p1] ++ (if ([exC4p2, exC4p3] : List (List Char)) = [] then []
    else [pyJoin ['\n', '\n'] [exC4p2, exC4p3]]) = _
  rw [if_neg (show ¬ ([exC4p2, exC4p3] : List (List Char)) = [] from by simp)]
  rfl

/-- Claim C4 as stated is false in its "consequently" clause: on this
three-paragraph input the packer emits the chunks `[p1, p2 ++ "\n\n" ++ p3]`,
yet the earlier chunk `p1` (2000 characters) plus the 2-character separator
plus the first segment `p2` (2497 characters) of the later chunk totals
4499 ≤ 4500 — the earlier chunk could have absorbed it without exceeding the
bound.  (The internal length counter overcounts the first appended segment
by 2, so the counter-based test fired anyway.) -/
theorem claim_C4_counterexample :
    translateChunks exC4 = [exC4p1, exC4p2 ++ ['\n', '\n'] ++ exC4p3] ∧
    (splitOnPair '\n' '\n' (exC4p2 ++ ['\n', '\n'] ++ exC4p3)).headD [] = exC4p2 ∧
    exC4p1.length + 2 + exC4p2.length ≤ MAX_CHUNK_SIZE := by
  refine ⟨exC4_chunks, ?_, by rw [exC4p1_len, exC4p2_len]; decide⟩
  rw [show exC4p2 ++ ['\n', '\n'] ++ exC4p3 = exC4p2 ++ '\n' :: '\n' :: exC4p3
    from by simp]
  rw [splitOnPair_append_sep '\n' '\n' exC4p2 exC4p3
    (fun c hc => by rw [show c = 'a' from List.eq_of_mem_replicate (show c ∈ List.replicate 2497 'a' from hc)]; decide)]
  rfl

/-- Claim C4, amended: the chunkers are single-pass greedy packers.  A
segment is appended to the in-progress chunk exactly when the running
counter plus the segment length plus the 2-character allowance stays within
the bound; otherwise the chunk is emitted and the segment starts a new one.
Consequently — counting each segment of the earlier chunk at its length plus
the 2-character allowance (the counter may exceed the chunk's true joined
length) — for every pair of consecutive emitted chunks the earlier chunk
could not absorb the first segment of the later chunk: its weight plus that
segment's length plus 2 exceeds the bound.  For the translate chunker the
scanned segments are the paragraphs, or the stripped nonempty sentences of
an oversized paragraph (`translateSegs`), and each emitted chunk is its
segment group joined with `"\n\n"` or with `' '` (`chunkOfGroup`); for the
TTS chunker the segments are the stripped nonempty sentences.  The plain
true-length version of "could not absorb" is false (see counterexample). -/
theorem claim_C4_theorem (text : List Char) :
    (∀ (B : Nat) (join : List (List Char) → List Char)
        (st : ChunkState) (seg : List Char), st.current_chunk ≠ [] →
      ((packStep B join st seg).current_chunk = st.current_chunk ++ [seg] ↔
        st.current_length + seg.length + 2 ≤ B)) ∧
    (∃ G, List.Forall₂ chunkOfGroup (translateChunks text) G ∧
      (∀ g ∈ G, g ≠ []) ∧
      G.flatten = translateSegs text ∧
      List.Chain' (greedyAdj MAX_CHUNK_SIZE) G) ∧
    (∃ G, ttsChunks text = G.map (fun g => pyJoin ['.', ' '] g ++ ['.']) ∧
      (∀ g ∈ G, g ≠ []) ∧
      G.flatten = ((ttsSentences text).map pyStrip).filter (fun s => !List.isEmpty s) ∧
      List.Chain' (greedyAdj MAX_TTS_SIZE) G) :=
  ⟨fun B join st seg hcur => packStep_append_iff B join st seg hcur,
   translateChunks_greedy_full text,
   ttsChunks_greedy text⟩

/-- Witness for the amended C4: the append-iff at a concrete packer state
(discharging its nonemptiness hypothesis), and the greedy decomposition at
the concrete two-paragraph input. -/
theorem claim_C4_witness :
    (packStep 10 (pyJoin [' ']) ⟨[], [['x']], 3⟩ ['y']).current_chunk
        = [['x']] ++ [['y']] ∧
    (∃ G, List.Forall₂ chunkOfGroup (translateChunks exC2w) G ∧
      (∀ g ∈ G, g ≠ []) ∧
      G.flatten = translateSegs exC2w ∧
      List.Chain' (greedyAdj MAX_CHUNK_SIZE) G) :=
  ⟨((claim_C4_theorem exC2w).1 10 (pyJoin [' ']) ⟨[], [['x']], 3⟩ ['y']
      (by decide)).mpr (by decide),
   (claim_C4_theorem exC2w).2.1⟩

end HablAI
